import Mathlib

/-!
# Verification of the Autonomous CI/CD Healing Agent core

Shallow embedding of the core data structures and algorithms of the
self-healing CI pipeline (run memory ledger, failure classification
deduplication and re-attribution, fix planning, patch application,
results exporter, and the reasoning loop), together with theorems that
settle the specification claims about them.

All definitions are transliterated from the Python sources under `src/`.
File contents are modelled as lists of lines (each line carrying its
trailing newline, exactly as Python's `str.splitlines(keepends=True)`),
file paths as strings, and the file system as a total map from path
strings to contents.  External effects (subprocess execution, network
calls to the language model, git, timestamps) are abstracted as explicit
oracle inputs.
-/

namespace HealAgent

/-! ## Run memory (`src/agents/run_memory.py`)

Append-only ledger of failure, fix and CI-run records.  Each `append_*`
method first drops any records previously stored for the same iteration
and then appends the freshly built records, so re-appending for the same
iteration is idempotent and records of other iterations are untouched.
-/

/-- `FailureRecord` dataclass (`run_memory.py` lines 21-38). -/
structure FailureRecord where
  file : String
  line : Nat
  bug_type : String
  standardized_message : String
  iteration : Nat
  deriving DecidableEq, Repr

/-- `FixRecord` dataclass (`run_memory.py` lines 41-58). -/
structure FixRecord where
  file : String
  line : Nat
  change_summary : String
  commit_hash : String
  iteration : Nat
  deriving DecidableEq, Repr

/-- `CIRunRecord` dataclass (`run_memory.py` lines 61-76);
`status ∈ {success, failure, timeout}`. -/
structure CIRunRecord where
  iteration : Nat
  status : String
  start_time : String
  end_time : String
  deriving DecidableEq, Repr

/-- A classified bug dict as consumed by `RunMemory.append_failures`
(keys `file`, `line`, `bug_type`, `message`) and produced by
`FailureClassifierTool`. -/
structure BugDict where
  file : String
  line : Nat
  bug_type : String
  message : String
  deriving DecidableEq, Repr

/-- An applied-patch dict as produced by `PatchApplierTool._write_patch`
and consumed by `RunMemory.append_fixes` (keys `file`, `description`
and the nested `bug` dict's `file`, `line`, `bug_type`). -/
structure PatchDict where
  file : String
  description : String
  bugFile : String
  bugLine : Nat
  bugType : String
  deriving DecidableEq, Repr

/-- The `RunMemory` container (`run_memory.py` lines 81-229): three
append-only collections. -/
structure RunMemory where
  _failures : List FailureRecord
  _fixes : List FixRecord
  _ci_runs : List CIRunRecord
  deriving DecidableEq, Repr

namespace RunMemory

/-- `RunMemory.__init__`. -/
def init : RunMemory := ⟨[], [], []⟩

/-- `RunMemory.append_failures` (lines 111-135): drop this iteration's
previous failures, then append one record per classified bug. -/
def append_failures (m : RunMemory) (iteration : Nat)
    (classified_bugs : List BugDict) : RunMemory :=
  { m with _failures :=
      m._failures.filter (fun f => f.iteration ≠ iteration) ++
      classified_bugs.map (fun bug =>
        { file := bug.file, line := bug.line, bug_type := bug.bug_type,
          standardized_message := bug.message, iteration := iteration }) }

/-- `RunMemory.append_fixes` (lines 137-163): drop this iteration's
previous fixes, then append one record per applied patch. -/
def append_fixes (m : RunMemory) (iteration : Nat)
    (applied_patches : List PatchDict) (commit_hash : String) : RunMemory :=
  { m with _fixes :=
      m._fixes.filter (fun f => f.iteration ≠ iteration) ++
      applied_patches.map (fun patch =>
        { file := patch.file, line := patch.bugLine,
          change_summary := patch.description, commit_hash := commit_hash,
          iteration := iteration }) }

/-- `RunMemory.append_ci_run` (lines 165-194): drop this iteration's
previous CI run, then append one record.  Python substitutes
`datetime.now()` for empty timestamps; the clock reading is passed in
explicitly as `now`. -/
def append_ci_run (m : RunMemory) (iteration : Nat) (status : String)
    (start_time end_time now : String) : RunMemory :=
  let st := if start_time = "" then now else start_time
  let et := if end_time = "" then now else end_time
  { m with _ci_runs :=
      m._ci_runs.filter (fun r => r.iteration ≠ iteration) ++
      [{ iteration := iteration, status := status,
         start_time := st, end_time := et }] }

/-- `RunMemory.latest_ci_run` (lines 198-200): `self._ci_runs[-1]` or
`None` when empty. -/
def latest_ci_run (m : RunMemory) : Option CIRunRecord :=
  m._ci_runs.getLast?

end RunMemory

/-! ## Generic string and list helpers

Executable translations of the Python primitives the sources use:
substring search (`in` / `str.find`), stable sorting (`sorted`), and
prefix matching.  Python's `sorted` is a stable sort; any stable sort
for the same total preorder produces the identical list, so a stable
insertion sort is an exact model. -/

/-- `List.isPrefixOf` for characters, as a Bool. -/
def charsPrefix : List Char → List Char → Bool
  | [], _ => true
  | _ :: _, [] => false
  | p :: ps, c :: cs => p = c && charsPrefix ps cs

/-- Suffix of `text` starting at the first occurrence of `pat`
(Python `text[text.find(pat):]` when `find ≠ -1`). -/
def subFrom (pat : List Char) : List Char → Option (List Char)
  | [] => if charsPrefix pat [] then some [] else none
  | c :: t =>
    if charsPrefix pat (c :: t) then some (c :: t) else subFrom pat t

/-- Python's substring test `pat in s` (for nonempty `pat`). -/
def strContainsSub (s pat : String) : Bool :=
  (subFrom pat.data s.data).isSome

/-- Python `s.startswith(pre)` (kernel-reducible, unlike
`String.startsWith`). -/
def pyStartsWith (s pre : String) : Bool :=
  charsPrefix pre.data s.data

/-- Python `s.endswith(suf)`. -/
def pyEndsWith (s suf : String) : Bool :=
  charsPrefix suf.data.reverse s.data.reverse

/-- Stable insertion into a list sorted w.r.t. the strict key order
`lt`: the new element goes before the first element it is not greater
than, so equal keys keep their original relative order (Python
`sorted` stability). -/
def insertStable {α : Type _} (lt : α → α → Bool) (a : α) :
    List α → List α
  | [] => [a]
  | b :: t => if lt b a then b :: insertStable lt a t else a :: b :: t

/-- Stable sort (extensionally equal to Python's `sorted` with the key
order `lt`). -/
def sortStable {α : Type _} (lt : α → α → Bool) : List α → List α
  | [] => []
  | a :: t => insertStable lt a (sortStable lt t)

/-- Python tuple comparison `(file, line) < (file', line')`. -/
def fileLineLt (f : String) (l : Nat) (f' : String) (l' : Nat) : Bool :=
  decide (f < f') || (f = f' && decide (l < l'))


/-! ## Path splitting and test-file conventions

The sources detect test files with small regex banks.  Each regex is
anchored with `(^|/)` on the left and (where present) `$` on the right,
and its body never matches `/`, so each is equivalent to a predicate on
the list of `/`-separated path components; the definitions below are
those predicates, component by component. -/

/-- Split a character list on `/` (the component list of a path;
`splitSlash p = [p]` when `p` has no slash, and always nonempty). -/
def splitSlash : List Char → List (List Char)
  | [] => [[]]
  | c :: t =>
    match splitSlash t with
    | [] => [[]]
    | s :: rest => if c = '/' then [] :: s :: rest else (c :: s) :: rest

/-- The `/`-separated components of a path. -/
def segmentsOf (p : String) : List String :=
  (splitSlash p.data).map (fun cs => String.mk cs)

/-- `pathlib.Path(p).name`: the last nonempty path component. -/
def pathName (p : String) : String :=
  ((segmentsOf p).filter (fun s => s ≠ "")).getLastD ""

/-- Some component other than the last one is in `names` (the regex
shape `(^|/)name/`, which needs a `/` after the component). -/
def segsHasDirOf (names : List String) : List String → Bool
  | [] => false
  | [_] => false
  | s :: s' :: rest => names.contains s || segsHasDirOf names (s' :: rest)

/-- Some component in `{test, tests}` is directly followed by a
component starting with `test_` (the regex `(^|/)tests?/test_`). -/
def segsTestsThenTest : List String → Bool
  | [] => false
  | [_] => false
  | s :: s' :: rest =>
    ((s = "test" || s = "tests") && pyStartsWith s' "test_")
    || segsTestsThenTest (s' :: rest)

/-- Regex `(^|/)test_[^/]+\.py$` on the final component: prefix
`test_`, suffix `.py`, and at least one character in between
(total length ≥ 9). -/
def lastSegIsTestUnderscore (lastSeg : String) : Bool :=
  pyStartsWith lastSeg "test_" && pyEndsWith lastSeg ".py"
    && decide (9 ≤ lastSeg.length)

/-- Regex `(^|/)[^/]+_test\.py$` on the final component. -/
def lastSegIsUnderscoreTest (lastSeg : String) : Bool :=
  pyEndsWith lastSeg "_test.py" && decide (9 ≤ lastSeg.length)

/-- The twelve suffixes generated by `\.(test|spec)\.(js|ts|jsx|tsx|mjs|cjs)`. -/
def specTestSuffixes : List String :=
  [".test.js", ".test.ts", ".test.jsx", ".test.tsx", ".test.mjs",
   ".test.cjs", ".spec.js", ".spec.ts", ".spec.jsx", ".spec.tsx",
   ".spec.mjs", ".spec.cjs"]

/-- `_is_test_file` (`patch_applier_tool.py` lines 29-40 and the
identical `fix_planner_tool.py` lines 23-34): any of the six
`_TEST_FILE_PATTERNS` matches the path. -/
def isTestFile (p : String) : Bool :=
  let segs := segmentsOf p
  let lastSeg := segs.getLastD ""
  lastSegIsTestUnderscore lastSeg
  || lastSegIsUnderscoreTest lastSeg
  || specTestSuffixes.any (fun suf =>
      pyEndsWith lastSeg suf && decide (suf.length < lastSeg.length))
  || segsHasDirOf ["__tests__"] segs
  || segsTestsThenTest segs
  || lastSeg = "conftest.py"

/-- `_is_test_path` (`error_classifier.py` lines 576-586): the five
`_TEST_FILE_RE` patterns (here `(^|/)tests?/` accepts any non-final
`test` or `tests` component). -/
def isTestPath (p : String) : Bool :=
  let segs := segmentsOf p
  let lastSeg := segs.getLastD ""
  lastSegIsTestUnderscore lastSeg
  || lastSegIsUnderscoreTest lastSeg
  || segsHasDirOf ["test", "tests"] segs
  || lastSeg = "conftest.py"
  || segsHasDirOf ["__tests__"] segs

/-! ## Failure classification (`src/agents/bug_classifier/error_classifier.py`)

The regex bank itself is an external text scanner; what the claims are
about is the accumulation loop of `_regex_classify` (lines 313-327) and
the re-attribution pass `_trace_test_bugs_to_source` (lines 589-730).
The scanner's output — the sequence of matches in evaluation order
(rules in bank order, and for each rule its matches in position order),
each with the captured `file`, `line`, the rule's bug type and the
formatted message — is taken as input. -/

/-- `BugReport` dataclass (`error_classifier.py` lines 54-62). -/
structure BugReport where
  file : String
  line : Nat
  bug_type : String
  message : String
  deriving DecidableEq, Repr

/-- One regex match as consumed by the loop body of `_regex_classify`:
captured file and line, the rule's bug type, and the message already
built from the rule's template. -/
structure RawMatch where
  file : String
  line : Nat
  bug_type : String
  message : String
  deriving DecidableEq, Repr

/-- The `(file, line, bug_type)` identity key. -/
def bugKey (b : BugReport) : String × Nat × String :=
  (b.file, b.line, b.bug_type)

/-- The key of a raw match. -/
def matchKey (m : RawMatch) : String × Nat × String :=
  (m.file, m.line, m.bug_type)

/-- The `BugReport` built from a match (`_regex_classify` line 326). -/
def reportOfMatch (m : RawMatch) : BugReport :=
  { file := m.file, line := m.line, bug_type := m.bug_type,
    message := m.message }

/-- The match-accumulation loop of `_regex_classify` (lines 313-327):
append each match's report unless a report with the same
`(file, line, bug_type)` key was already recorded. -/
def regexAccum (bugs : List BugReport) : List RawMatch → List BugReport
  | [] => bugs
  | m :: rest =>
    if bugs.any (fun b => bugKey b = matchKey m) then
      regexAccum bugs rest
    else
      regexAccum (bugs ++ [reportOfMatch m]) rest

/-- The bug list produced by the regex pass from a match stream. -/
def regex_classify_bugs (ms : List RawMatch) : List BugReport :=
  regexAccum [] ms

/-- An enriched classified-bug entry as built by
`FailureClassifierTool.execute` (lines 133-147). -/
structure ClassifiedBug where
  file : String
  line : Nat
  bug_type : String
  message : String
  severity : String
  fix_hint : String
  deriving DecidableEq, Repr

/-- The final dedup loop of `FailureClassifierTool.execute`
(lines 149-156): keep the first entry for each
`(file, line, bug_type)` key. -/
def uniqueClassified (seen : List (String × Nat × String)) :
    List ClassifiedBug → List ClassifiedBug
  | [] => []
  | b :: t =>
    if (b.file, b.line, b.bug_type) ∈ seen then
      uniqueClassified seen t
    else
      b :: uniqueClassified ((b.file, b.line, b.bug_type) :: seen) t

/-- ASCII lowering of a string (Python `str.lower`; the error messages
involved are ASCII). -/
def pyLower (s : String) : String :=
  String.mk (s.data.map Char.toLower)

/-- Bug-type inference from the error message
(`_trace_test_bugs_to_source` lines 680-696). -/
def inferBugTypeFromMsg (error_msg : String) : String :=
  let el := pyLower error_msg
  if strContainsSub el "indexerror" then "LOGIC"
  else if strContainsSub el "zerodivisionerror" then "LOGIC"
  else if strContainsSub el "recursionerror" then "LOGIC"
  else if strContainsSub el "typeerror" then "TYPE_ERROR"
  else if strContainsSub el "importerror"
      || strContainsSub el "modulenotfound" then "IMPORT"
  else if strContainsSub el "syntaxerror" then "SYNTAX"
  else if strContainsSub el "indentationerror" then "INDENTATION"
  else "LOGIC"

/-- A parsed `FAILED <test-path>::<test-name> - <message>` summary line
(`failed_pattern`, lines 614-616). -/
structure FailedLine where
  test_path : String
  test_name : String
  error_msg : String
  deriving DecidableEq, Repr

/-- A parsed pytest traceback section (`test_section_re`,
lines 640-643) with the `(file, line)` references collected inside it
by `file_ref_verbose` then `file_ref_short` (lines 658-662). -/
structure TraceSection where
  test_name : String
  file_refs : List (String × Nat)
  deriving DecidableEq, Repr

/-- Dict lookup in `failed_tests`: the dict is filled in order of the
`FAILED` lines, later entries overwriting earlier ones. -/
def failedLookup (failedLines : List FailedLine) (name : String) :
    Option FailedLine :=
  (failedLines.filter (fun fl => fl.test_name = name)).getLast?

/-- The reference filter of `_trace_test_bugs_to_source`
(lines 665-671): keep references outside the test tree, outside
bundled third-party paths, and not pseudo-files. -/
def survivingRefs (refs : List (String × Nat)) : List (String × Nat) :=
  refs.filter (fun fr =>
    !isTestPath fr.1 && !strContainsSub fr.1 "/site-packages/"
      && !pyStartsWith fr.1 "/usr/" && !pyStartsWith fr.1 "<")

/-- Strip the Docker `/workspace/` prefix (lines 677-678). -/
def stripWorkspace (f : String) : String :=
  if pyStartsWith f "/workspace/" then
    String.mk (f.data.drop "/workspace/".length)
  else f

/-- The traced source bug a section contributes, if any
(lines 647-703): the section's test must appear among the `FAILED`
lines, and the *last* surviving reference is taken as the authoritative
location. -/
def sectionTrace (failedLines : List FailedLine) (sec : TraceSection) :
    Option BugReport :=
  match failedLookup failedLines sec.test_name with
  | none => none
  | some info =>
    match (survivingRefs sec.file_refs).getLast? with
    | none => none
    | some (f, ln) =>
      some { file := stripWorkspace f, line := ln,
             bug_type := inferBugTypeFromMsg info.error_msg,
             message := info.error_msg }

/-- First-occurrence dedup by `(file, line, bug_type)`
(lines 716-723). -/
def dedupReports (seen : List (String × Nat × String)) :
    List BugReport → List BugReport
  | [] => []
  | b :: t =>
    if bugKey b ∈ seen then
      dedupReports seen t
    else
      b :: dedupReports (bugKey b :: seen) t

/-- `_trace_test_bugs_to_source` (lines 589-730), with the log parsing
abstracted into `failedLines` (the parsed `FAILED` summary lines) and
`sections` (the parsed traceback sections with their file references):
re-attribute test-file bugs to the last surviving source reference of
the matching traceback section, keep only non-test-path input bugs, and
dedup. -/
def trace_test_bugs_to_source (bugs : List BugReport)
    (failedLines : List FailedLine) (sections : List TraceSection) :
    List BugReport :=
  if failedLines.isEmpty then bugs
  else
    let traced := sections.filterMap (sectionTrace failedLines)
    if traced.isEmpty then bugs
    else
      let non_test := bugs.filter (fun b => !isTestPath b.file)
      dedupReports [] (non_test ++ traced)

/-! ## Results exporter (`src/shared/results_exporter.py`) -/

/-- Sorted view `RunMemory.failures` (`run_memory.py` lines 97-99):
`sorted(self._failures, key=lambda f: (f.file, f.line))`. -/
def RunMemory.failuresSorted (m : RunMemory) : List FailureRecord :=
  sortStable (fun a b => fileLineLt a.file a.line b.file b.line) m._failures

/-- Sorted view `RunMemory.fixes` (`run_memory.py` lines 101-103). -/
def RunMemory.fixesSorted (m : RunMemory) : List FixRecord :=
  sortStable (fun a b => fileLineLt a.file a.line b.file b.line) m._fixes

/-- Scanner for the regex `/heal_[^/]+/(.*)` of `_strip_temp_prefix`
(`results_exporter.py` line 196): after the literal `/heal_` consume at
least one non-`/` character up to the next `/`, and return everything
after that `/` (group 1; paths contain no newline, so `.*` reaches the
end). -/
def healGroup : List Char → Option (List Char)
  | [] => none
  | c :: t => if c = '/' then none else healGroupGo t
where
  healGroupGo : List Char → Option (List Char)
    | [] => none
    | c :: t => if c = '/' then some t else healGroupGo t

/-- Leftmost-match search for `/heal_[^/]+/(.*)` over the path. -/
def findHealGroup : List Char → Option (List Char)
  | [] => none
  | c :: t =>
    if charsPrefix "/heal_".data (c :: t) then
      match healGroup (t.drop 5) with
      | some r => some r
      | none => findHealGroup t
    else findHealGroup t

/-- `_strip_temp_prefix` (`results_exporter.py` lines 186-206): strip a
`/heal_xxx/` temp-clone prefix; otherwise, for absolute paths, cut from
the first occurrence of a project-root marker. -/
def strip_temp_prefix (filepath : String) : String :=
  match findHealGroup filepath.data with
  | some rest => String.mk rest
  | none =>
    if pyStartsWith filepath "/" then
      match (["src/", "lib/", "app/", "tests/", "test/"].filterMap
          (fun marker => subFrom marker.data filepath.data)).head? with
      | some suffix => String.mk suffix
      | none => filepath
    else filepath

/-- `_normalize_for_match` (`results_exporter.py` lines 209-211). -/
def normalize_for_match (filepath : String) : String :=
  strip_temp_prefix filepath

/-- `_infer_bug_type` (`results_exporter.py` lines 214-234): match a fix
back to a failure record, by normalized file+line, then file, then
basename+line, then basename. -/
def infer_bug_type (fix : FixRecord) (failures : List FailureRecord) :
    String :=
  let fix_file := normalize_for_match fix.file
  match failures.find? (fun fl =>
      normalize_for_match fl.file = fix_file && fl.line = fix.line) with
  | some fl => fl.bug_type
  | none =>
    match failures.find? (fun fl =>
        normalize_for_match fl.file = fix_file) with
    | some fl => fl.bug_type
    | none =>
      let bn := pathName fix_file
      match failures.find? (fun fl =>
          pathName fl.file = bn && fl.line = fix.line) with
      | some fl => fl.bug_type
      | none =>
        match failures.find? (fun fl => pathName fl.file = bn) with
        | some fl => fl.bug_type
        | none => "unknown"

/-- `_infer_failure_message` (`results_exporter.py` lines 237-255): same
matching chain, extracting the standardized message. -/
def infer_failure_message (fix : FixRecord)
    (failures : List FailureRecord) : String :=
  let fix_file := normalize_for_match fix.file
  match failures.find? (fun fl =>
      normalize_for_match fl.file = fix_file && fl.line = fix.line) with
  | some fl => fl.standardized_message
  | none =>
    match failures.find? (fun fl =>
        normalize_for_match fl.file = fix_file) with
    | some fl => fl.standardized_message
    | none =>
      let bn := pathName fix_file
      match failures.find? (fun fl =>
          pathName fl.file = bn && fl.line = fix.line) with
      | some fl => fl.standardized_message
      | none =>
        match failures.find? (fun fl => pathName fl.file = bn) with
        | some fl => fl.standardized_message
        | none => ""

/-- One entry of the exported `fixes` array. -/
structure FixEntry where
  file : String
  bug_type : String
  line : Nat
  commit_message : String
  status : String
  description : String
  failure_message : String
  deriving DecidableEq, Repr

/-- `_build_fixes` (`results_exporter.py` lines 145-183): one entry per
fix record of the sorted `memory.fixes` view, sorted again by
(file, line).  The `status` is `"verified"` when some CI run of an
iteration `≥` the fix's iteration succeeded, and the canonical
description line is
`"{BUG_TYPE} error in {file} line {line} → Fix: {message}"`. -/
def build_fixes (m : RunMemory) : List FixEntry :=
  sortStable (fun a b => fileLineLt a.file a.line b.file b.line)
    (m.fixesSorted.map (fun fix =>
      let status :=
        if m._ci_runs.any (fun ci =>
            fix.iteration ≤ ci.iteration && ci.status = "success")
        then "verified" else "applied"
      let rel_file := strip_temp_prefix fix.file
      let bug_type := infer_bug_type fix m.failuresSorted
      let failure_msg := infer_failure_message fix m.failuresSorted
      let commit_msg := fix.change_summary
      let description :=
        bug_type ++ " error in " ++ rel_file ++ " line " ++
          toString fix.line ++ " → Fix: " ++ commit_msg
      { file := rel_file, bug_type := bug_type, line := fix.line,
        commit_message := commit_msg, status := status,
        description := description, failure_message := failure_msg }))

/-- `_resolve_final_ci_status` (`results_exporter.py` lines 270-281). -/
def resolve_final_ci_status (m : RunMemory) : String :=
  match m.latest_ci_run with
  | none => if m.failuresSorted.isEmpty then "PASSED" else "FAILED"
  | some latest => if latest.status = "success" then "PASSED" else "FAILED"

/-! ## Python string primitives for the patch engine

File contents are lists of lines, each line keeping its trailing
newline (`str.splitlines(keepends=True)`).  `str.strip` family strips
ASCII whitespace (the sources never hit the further Unicode cases). -/

/-- Python whitespace for `str.strip()` (ASCII part). -/
def isPySpace (c : Char) : Bool :=
  c = ' ' || c = '\t' || c = '\n' || c = '\r'
    || c = Char.ofNat 11 || c = Char.ofNat 12

/-- Python `s.lstrip()`. -/
def pyLstrip (s : String) : String :=
  String.mk (s.data.dropWhile isPySpace)

/-- Python `s.rstrip()`. -/
def pyRstrip (s : String) : String :=
  String.mk (s.data.reverse.dropWhile isPySpace).reverse

/-- Python `s.strip()`. -/
def pyStrip (s : String) : String :=
  pyLstrip (pyRstrip s)

/-- `len(line) - len(line.lstrip())`, the indent width used throughout
the patch engine. -/
def indentOf (line : String) : Nat :=
  line.length - (pyLstrip line).length

/-- Python `s.count(c)` for a single character. -/
def countChar (s : String) (c : Char) : Nat :=
  s.data.count c

/-- Python `list.insert(pos, x)` (appends when `pos ≥ len`). -/
def pyInsert {α : Type _} (l : List α) (pos : Nat) (x : α) : List α :=
  l.take pos ++ [x] ++ l.drop pos

/-! ## Patch application internals
(`src/agents/tools/patch_applier_tool.py`) -/

/-- `MAX_CHANGED_LINES` (`patch_applier_tool.py` line 27). -/
def MAX_CHANGED_LINES : Nat := 20

/-- A fix-plan entry as produced by `FixPlannerTool` and consumed by
`PatchApplierTool` (`strategy`, resolved `target_file`, nested `bug`). -/
structure PlanEntry where
  strategy : String
  target_file : String
  bug : BugDict
  deriving DecidableEq, Repr

/-- `_detect_indent_unit` (`patch_applier_tool.py` lines 691-714): all
positive indents of non-blank non-comment lines, in encounter order. -/
def indentSamples (lines : List String) : List Nat :=
  lines.foldr (fun line acc =>
    let stripped := pyLstrip line
    if stripped ≠ "" ∧ ¬ pyStartsWith stripped "#" then
      let indent := line.length - stripped.length
      if 0 < indent then indent :: acc else acc
    else acc) []

/-- Consecutive differences of a list (`indents[i+1] - indents[i]`). -/
def consecDiffs : List Nat → List Nat
  | a :: b :: rest => (b - a) :: consecDiffs (b :: rest)
  | _ => []

/-- `Counter(diffs).most_common(1)[0][0]`: the value with the maximal
count; ties resolve to the earliest first occurrence (Python `sorted`
by count is stable over `Counter` insertion order). -/
def mostCommonFirst (l : List Nat) : Option Nat :=
  l.dedup.foldl (fun best v =>
    match best with
    | none => some v
    | some b => if l.count b < l.count v then some v else best) none

/-- `_detect_indent_unit` (`patch_applier_tool.py` lines 691-714). -/
def detect_indent_unit (lines : List String) : Nat :=
  let indents0 := indentSamples lines
  if indents0 = [] then 4
  else
    let indents := sortStable (fun a b => decide (a < b)) indents0.dedup
    let diffs := (consecDiffs indents).filter (fun d => 0 < d)
    match mostCommonFirst diffs with
    | some d => d
    | none => indents.headD 4

/-- `_detect_indent_string` (`patch_applier_tool.py` lines 716-722). -/
def detect_indent_string (lines : List String) : String :=
  if lines.any (fun l => pyStartsWith l "\t") then "\t"
  else String.mk (List.replicate (detect_indent_unit lines) ' ')

/-- Python `\w` (ASCII part): letters, digits, underscore. -/
def isWordChar (c : Char) : Bool :=
  c.isAlpha || c.isDigit || c = '_'

/-- Numeric value of a digit run. -/
def natOfDigits (ds : List Char) : Nat :=
  ds.foldl (fun n c => n * 10 + (c.toNat - 48)) 0

/-- Match `(\w+)\[(\d+)\]` at the start of `cs` with a maximal word
run. -/
def matchVarIndexAt (cs : List Char) : Option (String × Nat) :=
  let run := cs.takeWhile isWordChar
  if run = [] then none
  else
    match cs.dropWhile isWordChar with
    | '[' :: r2 =>
      let ds := r2.takeWhile Char.isDigit
      if ds ≠ [] ∧ (r2.dropWhile Char.isDigit).head? = some ']' then
        some (String.mk run, natOfDigits ds)
      else none
    | _ => none

/-- `re.search(r'(\w+)\[(\d+)\]', s)`: the leftmost match always starts
at the beginning of a maximal word run, so only positions not preceded
by a word character need trying. -/
def findVarIndexGo (prevIsWord : Bool) : List Char → Option (String × Nat)
  | [] => none
  | c :: t =>
    if !prevIsWord then
      match matchVarIndexAt (c :: t) with
      | some r => some r
      | none => findVarIndexGo (isWordChar c) t
    else findVarIndexGo (isWordChar c) t

/-- Leftmost `(\w+)\[(\d+)\]` match in a string. -/
def findVarIndex (s : String) : Option (String × Nat) :=
  findVarIndexGo false s.data

/-- The `while` loop of `_fix_index_error` (lines 555-561): first index
`≥ idx + 1` whose line is blank or indented shallower than
`indent_len`, else the list length. -/
def blockEndAux (lines : List String) (indent_len : Nat) :
    Nat → Nat → Nat
  | 0, be => be
  | fuel + 1, be =>
    if be < lines.length then
      if pyStrip (lines.getD be "") ≠ "" then
        if (lines.getD be "").length - (pyLstrip (lines.getD be "")).length
            < indent_len then be
        else blockEndAux lines indent_len fuel (be + 1)
      else be
    else be

/-- `block_end` starting from `idx + 1`. -/
def blockEnd (lines : List String) (idx indent_len : Nat) : Nat :=
  blockEndAux lines indent_len lines.length (idx + 1)

/-- Prefix every line with index in `[lo, hi]` by `indent_str`
(the `for i in range(idx+1, block_end+1)` loop of lines 565-566). -/
def indentRangeGo (indent_str : String) (lo hi : Nat) :
    Nat → List String → List String
  | _, [] => []
  | i, s :: t =>
    (if lo ≤ i ∧ i ≤ hi then indent_str ++ s else s)
      :: indentRangeGo indent_str lo hi (i + 1) t

/-- `_fix_index_error` (`patch_applier_tool.py` lines 532-578): insert a
bounds check before a `var[N]` access, or wrap the whole following
block in `try/except` when no such access parses. -/
def fix_index_error (lines : List String) (idx : Nat) :
    Option (List String × String) :=
  let line_no := idx + 1
  let original := lines.getD idx ""
  let indent_len := indentOf original
  let pad := String.mk (original.data.take indent_len)
  let stripped := pyStrip original
  let indent_str := detect_indent_string lines
  match findVarIndex stripped with
  | none =>
    let block_end := blockEnd lines idx indent_len
    let new_lines := pyInsert lines idx (pad ++ "try:\n")
    let new_lines := indentRangeGo indent_str (idx + 1) block_end 0 new_lines
    let new_lines := pyInsert new_lines (block_end + 1)
      (pad ++ "except (IndexError, KeyError):\n" ++ pad ++ indent_str
        ++ "continue\n")
    some (new_lines, s!"Wrapped line {line_no} in try/except for IndexError")
  | some (var_name, index_val) =>
    let guard := pad ++ s!"if len({var_name}) <= {index_val}:\n"
      ++ pad ++ indent_str ++ "continue\n"
    some (pyInsert lines idx guard,
      s!"Added bounds check for {var_name}[{index_val}] at line {line_no}")

/-- `deterministic_colon` branch of `_deterministic_patch`
(lines 240-245): append a colon to the rstripped line unless one is
already there. -/
def fix_colon (lines : List String) (idx : Nat) :
    Option (List String × String) :=
  let stripped := pyRstrip (lines.getD idx "")
  if ¬ pyEndsWith stripped ":" then
    some (lines.set idx (stripped ++ ":\n"),
      s!"Added missing colon at line {idx + 1}")
  else none

/-- `_apply_one` (lines 140-216) evaluated at strategy
`deterministic_index_error` on an existing readable file: the
line-range guard of `_deterministic_patch` (lines 228-231), the
`deterministic_index_error` branch (lines 285-288), and on success an
unconditional `_write_patch` (lines 862-908) — no change-size check on
this path. -/
def apply_deterministic_index_error (lines : List String)
    (bugLine : Nat) : String × Option (List String) × String :=
  let det : Option (List String × String) :=
    if bugLine < 1 ∨ lines.length < bugLine then none
    else fix_index_error lines (bugLine - 1)
  match det with
  | some (fixed, desc) => ("applied", some fixed, desc)
  | none => ("no_fix_generated", none, "")

/-- Count of line-level differences between the old and new content:
in-place changed lines plus the net number of inserted or removed
lines. -/
def changedLineCount (old new : List String) : Nat :=
  ((old.zip new).filter (fun p => p.1 ≠ p.2)).length
    + (max old.length new.length - min old.length new.length)

/-! ### Ordering of patch application (`PatchApplierTool.execute`,
lines 88-124) -/

/-- Actionable entries: everything except `skip_test_file` and
`unresolvable` (lines 93-99). -/
def actionableEntries (plan : List PlanEntry) : List PlanEntry :=
  plan.filter (fun e =>
    ¬ (e.strategy = "skip_test_file" ∨ e.strategy = "unresolvable"))

/-- `execute`'s application order (lines 109-117): distinct target
files in ascending (`sorted`) order, and inside each file the entries
sorted by bug line descending (Python's stable `sort(reverse=True)`). -/
def ordered_entries (plan : List PlanEntry) : List PlanEntry :=
  let actionable := actionableEntries plan
  let keys := sortStable (fun a b => decide (a < b))
    ((actionable.map (fun e => e.target_file)).dedup)
  keys.foldr (fun k acc =>
    sortStable (fun x y => decide (y.bug.line < x.bug.line))
      (actionable.filter (fun e => e.target_file = k)) ++ acc) []

/-! ## Fix planning (`src/agents/tools/fix_planner_tool.py`) -/

/-- `pathlib` join `repo_path / target`: an absolute right side
discards the left (`Path("/a") / "/b" == Path("/b")`); `repo_path` is
taken without a trailing slash. -/
def resolvePath (repo_path target : String) : String :=
  if pyStartsWith target "/" then target else repo_path ++ "/" ++ target

/-- The file-system facts `_plan_one` consults: `Path.is_file`, reading
a file as keepends lines (`None` models a read error), and the sorted
`repo_path.rglob(name)` candidate list. -/
structure PlannerFS where
  isFile : String → Bool
  readLines : String → Option (List String)
  rglob : String → List String

/-- `_choose_strategy` (`fix_planner_tool.py` lines 231-333). -/
def choose_strategy (bug_type : String) (line_no : Nat)
    (message : String) (lines : List String) : String :=
  if line_no < 1 ∨ lines.length < line_no then "llm"
  else
    let original_line := lines.getD (line_no - 1) ""
    let ml := pyLower message
    if bug_type = "INDENTATION" then "deterministic_indent"
    else if bug_type = "SYNTAX" ∧ strContainsSub ml "expected ':'"
        ∧ ¬ pyEndsWith (pyRstrip original_line) ":" then
      "deterministic_colon"
    else if bug_type = "SYNTAX" ∧ strContainsSub ml "missing semicolon" then
      "deterministic_semicolon"
    else if bug_type = "SYNTAX"
        ∧ (strContainsSub message "unexpected EOF"
            ∨ strContainsSub ml "expected")
        ∧ (let stripped := pyRstrip original_line
           (countChar stripped ')' : Int) < countChar stripped '('
            ∨ (countChar stripped ']' : Int) < countChar stripped '['
            ∨ (countChar stripped '}' : Int) < countChar stripped '{') then
      "deterministic_bracket"
    else if bug_type = "LINTING"
        ∧ (strContainsSub ml "imported but unused"
            ∨ strContainsSub ml "f401"
            ∨ strContainsSub ml "unused import") then
      "deterministic_unused_import"
    else if bug_type = "TYPE_ERROR"
        ∧ strContainsSub ml "is not a function" then
      "deterministic_type_error"
    else if bug_type = "LOGIC"
        ∧ (strContainsSub ml "should multiply"
            ∨ strContainsSub ml "should divide"
            ∨ strContainsSub ml "should add"
            ∨ strContainsSub ml "should subtract") then
      "deterministic_logic"
    else if strContainsSub ml "zerodivisionerror"
        ∨ (bug_type = "LOGIC" ∧ strContainsSub original_line "/") then
      "deterministic_zero_division"
    else if strContainsSub ml "indexerror"
        ∨ (bug_type = "LOGIC"
            ∧ (strContainsSub original_line "["
                ∨ strContainsSub original_line "split")) then
      "deterministic_index_error"
    else if strContainsSub ml "recursion" then
      "deterministic_recursion_error"
    else "llm"

/-- `_plan_one` (`fix_planner_tool.py` lines 144-229): the test-file
guard comes first; then path resolution (with the `rglob` fallback),
reading, and strategy choice. -/
def plan_one (pfs : PlannerFS) (repo_path : String) (bug : BugDict) :
    PlanEntry :=
  if isTestFile bug.file then
    { strategy := "skip_test_file", target_file := bug.file, bug := bug }
  else
    let abs0 := resolvePath repo_path bug.file
    let found : Option String :=
      if pfs.isFile abs0 then some abs0
      else (pfs.rglob (pathName bug.file)).head?
    match found with
    | none => { strategy := "unresolvable", target_file := bug.file, bug := bug }
    | some abs_path =>
      match pfs.readLines abs_path with
      | none =>
        { strategy := "unresolvable", target_file := abs_path, bug := bug }
      | some lines =>
        { strategy := choose_strategy bug.bug_type bug.line bug.message lines,
          target_file := abs_path, bug := bug }

/-- The `(file, bug_type)` keys of previously attempted fixes
(`FixPlannerTool.execute` lines 53-64): per-file keys from run memory
plus `(file, bug_type)` keys from this run's applied patches. -/
def prev_fix_keys_of (mem : RunMemory) (applied : List PatchDict) :
    List (String × String) :=
  mem.fixesSorted.map (fun f => (f.file, ""))
  ++ applied.map (fun p => (p.bugFile, p.bugType))

/-- The planning loop of `FixPlannerTool.execute` (lines 89-131):
location dedup via `seen_locations` and LLM escalation for already
attempted `(file, bug_type)` pairs. -/
def fix_planner_go (pfs : PlannerFS) (repo_path : String)
    (prev_fix_keys : List (String × String)) :
    List BugDict → List (String × Nat) → List PlanEntry
  | [], _ => []
  | bug :: rest, seen =>
    if (bug.file, bug.line) ∈ seen then
      fix_planner_go pfs repo_path prev_fix_keys rest seen
    else
      let already_tried := (bug.file, bug.bug_type) ∈ prev_fix_keys
        ∨ (bug.file, "") ∈ prev_fix_keys
      let entry := plan_one pfs repo_path bug
      let entry := if already_tried
          ∧ pyStartsWith entry.strategy "deterministic" then
        { entry with strategy := "llm" }
      else entry
      entry :: fix_planner_go pfs repo_path prev_fix_keys rest
        ((bug.file, bug.line) :: seen)

/-- `FixPlannerTool.execute`'s produced `fix_plan`. -/
def fix_planner_execute (pfs : PlannerFS) (repo_path : String)
    (bugs : List BugDict) (prev_fix_keys : List (String × String)) :
    List PlanEntry :=
  fix_planner_go pfs repo_path prev_fix_keys bugs []

/-! ## Patch application over a file system (claim C2)

For the frame property (which files `execute` writes), the file system
is a total map from path strings to contents, and the patch pipeline of
`_apply_one` after its guards (`_deterministic_patch` falling back to
`_llm_patch`) is abstracted as an oracle producing the optional new
content for the target — in the source both only ever hand content back
to `_write_patch`, which writes `abs_path` alone (line 883). -/

structure ApplierEnv where
  isFile : String → Bool
  patchResult : PlanEntry → List String → Option (List String)

/-- `_apply_one` (lines 140-216) restricted to its file effects: the
test-file double check (lines 157-164), path resolution (lines
166-168), the `is_file` guard, and the single `write_text` on success. -/
def apply_one_fs (env : ApplierEnv) (repo_path : String)
    (entry : PlanEntry) (fs : String → List String) :
    String → List String :=
  if isTestFile entry.target_file then fs
  else
    let abs_path := resolvePath repo_path entry.target_file
    if ¬ env.isFile abs_path then fs
    else
      match env.patchResult entry (fs abs_path) with
      | some newLines => fun p => if p = abs_path then newLines else fs p
      | none => fs

/-- `PatchApplierTool.execute`'s file effects: the non-actionable
entries are skipped outright (lines 93-107) and the actionable ones are
applied in `ordered_entries` order (lines 119-124). -/
def patch_applier_execute_fs (env : ApplierEnv) (repo_path : String)
    (plan : List PlanEntry) (fs : String → List String) :
    String → List String :=
  (ordered_entries plan).foldl
    (fun f e => apply_one_fs env repo_path e f) fs

/-! ## Reasoning loop (`src/agents/reasoning_loop.py`)

The eight-phase state machine.  Tool executions are external
(subprocesses, network, git): each node's declared outputs are supplied
by an environment `Nat → EnvStep` indexed by a global node-execution
counter, while the transition logic `_reason_transition`
(lines 512-721), the `VerificationTool` logic (which the transitions
depend on through `should_continue`), and the outer iteration loop of
`run_reasoning_loop` (lines 412-509) are embedded faithfully.  One
`ainvoke` of the compiled graph is a ring traversal starting at
`RUN_TESTS` bounded by the `recursion_limit` of 25 node executions
(exceeding it raises, caught as a `graph_error` verdict).  All
configuration keys the tools require (`repo_path`, `repo_url`,
`branch`) are assumed present, so `validate_io` never skips a tool.
Timestamps are abstracted as `""`. -/

/-- Workflow phases (`reasoning_loop.py` lines 52-63). -/
inductive Phase where
  | RUN_TESTS | CLASSIFY | PLAN_FIX | APPLY_PATCH | COMMIT_PUSH
  | WAIT_FOR_CI | FETCH_CI_RESULTS | VERIFY | DONE
  deriving DecidableEq, Repr

/-- `MAX_TOTAL_COMMITS` (`reasoning_loop.py` line 47). -/
def MAX_TOTAL_COMMITS : Nat := 10

/-- The shared workflow state: every key the transition logic or the
verification tool reads, with Python's `.get` defaults as initial
values (`""`, `False`, `[]`, `0`). -/
structure Shared where
  test_output : String := ""
  local_all_passed : Bool := false
  ci_logs : String := ""
  classified_bugs : List BugDict := []
  prev_failure_keys : List (String × String) := []
  fix_plan : List PlanEntry := []
  applied_count : Nat := 0
  applied_patches : List PatchDict := []
  commit_sha : String := ""
  push_status : String := ""
  ci_status : String := ""
  ci_conclusion : String := ""
  all_passed : Bool := false
  verdict : String := ""
  should_continue : Bool := false
  ci_unavailable : Bool := false
  verification_output : String := ""
  passing_suites : Nat := 0
  failing_suites : Nat := 0
  ci_passing_suites : Nat := 0
  ci_failing_suites : Nat := 0
  deriving DecidableEq, Repr

/-- `IterationReport` (`reasoning_loop.py` lines 81-108), the fields the
loop reads. -/
structure Report where
  iteration : Nat := 0
  bugs_found : Nat := 0
  patches_applied : Nat := 0
  commit_sha : String := ""
  ci_conclusion : String := ""
  all_passed : Bool := false
  verdict : String := ""
  deriving DecidableEq, Repr

/-- Declared outputs of one tool execution (external effects supplied
by the environment). -/
structure EnvStep where
  tr_test_output : String := ""
  tr_local_all_passed : Bool := false
  tr_all_passed : Bool := false
  tr_passing_suites : Nat := 0
  tr_failing_suites : Nat := 0
  fc_classified_bugs : List BugDict := []
  fp_fix_plan : List PlanEntry := []
  pa_applied_patches : List PatchDict := []
  cp_commit_sha : String := ""
  cp_push_status : String := ""
  wc_ci_conclusion : String := ""
  wc_ci_status : String := ""
  fr_ci_logs : String := ""
  fr_test_output : String := ""
  fr_ci_passing_suites : Nat := 0
  fr_ci_failing_suites : Nat := 0
  vf_local_passed : Bool := false
  vf_local_output : String := ""
  deriving Repr

/-- Python set equality of key lists (`current_keys == prev_keys` on
`set`s): mutual membership. -/
def setEqSL (a b : List (String × String)) : Bool :=
  a.all (fun x => decide (x ∈ b)) && b.all (fun x => decide (x ∈ a))

/-- `VerificationTool.execute` (`verification_tool.py` lines 39-157):
pure given the shared state, the memory, and the outcome of the local
re-verification run (external). -/
def verificationTool (e : EnvStep) (s : Shared) (mem : RunMemory)
    (iter : Nat) : Shared × RunMemory :=
  let ci_conclusion :=
    match mem.latest_ci_run with
    | some latest =>
      if s.ci_conclusion = "" then latest.status else s.ci_conclusion
    | none => s.ci_conclusion
  if s.ci_unavailable ∨ ci_conclusion = "" then
    if e.vf_local_passed then
      ({ s with
        all_passed := true, should_continue := false,
          verdict := "pass", verification_output := e.vf_local_output,
          local_all_passed := true, passing_suites := 1,
          failing_suites := 0 },
       mem.append_ci_run iter "success" "" "" "")
    else
      ({ s with
        all_passed := false, should_continue := true,
          verdict := "fail", verification_output := e.vf_local_output,
          local_all_passed := false, passing_suites := 0,
          failing_suites := 1 }, mem)
  else
    let all_passed := ci_conclusion = "success"
    let prev_failing :=
      match mem._ci_runs.reverse with
      | _ :: prev_ci :: _ =>
        if prev_ci.status ≠ "success" ∧ s.failing_suites = 0 then 1
        else s.failing_suites
      | _ => s.failing_suites
    let failing := s.ci_failing_suites
    let improvement : Int := (prev_failing : Int) - (failing : Int)
    let vc : String × Bool :=
      if all_passed then ("pass", false)
      else if 0 < improvement then ("partial", true)
      else ("fail", decide (0 < failing))
    let verification_output :=
      if s.ci_logs ≠ "" then s.ci_logs
      else "CI conclusion: " ++ ci_conclusion
    ({ s with
        all_passed := all_passed, should_continue := vc.2,
        verdict := vc.1, verification_output := verification_output,
        passing_suites := s.ci_passing_suites, failing_suites := failing },
     mem)

/-- Merge one tool's declared outputs into the shared state
(`_make_langgraph_node`, `shared.update(result.outputs)`); the
verification tool additionally appends to memory itself. -/
def applyToolOutputs (p : Phase) (e : EnvStep) (s : Shared)
    (mem : RunMemory) (iter : Nat) : Shared × RunMemory :=
  match p with
  | Phase.RUN_TESTS =>
    ({ s with
        test_output := e.tr_test_output,
        local_all_passed := e.tr_local_all_passed,
        all_passed := e.tr_all_passed,
        passing_suites := e.tr_passing_suites,
        failing_suites := e.tr_failing_suites }, mem)
  | Phase.CLASSIFY => ({ s with
        classified_bugs := e.fc_classified_bugs }, mem)
  | Phase.PLAN_FIX => ({ s with
        fix_plan := e.fp_fix_plan }, mem)
  | Phase.APPLY_PATCH =>
    ({ s with
        applied_patches := e.pa_applied_patches,
        applied_count := e.pa_applied_patches.length }, mem)
  | Phase.COMMIT_PUSH =>
    ({ s with
        commit_sha := e.cp_commit_sha,
        push_status := e.cp_push_status }, mem)
  | Phase.WAIT_FOR_CI =>
    ({ s with
        ci_conclusion := e.wc_ci_conclusion,
        ci_status := e.wc_ci_status }, mem)
  | Phase.FETCH_CI_RESULTS =>
    ({ s with
        ci_logs := e.fr_ci_logs, test_output := e.fr_test_output,
        ci_passing_suites := e.fr_ci_passing_suites,
        ci_failing_suites := e.fr_ci_failing_suites }, mem)
  | Phase.VERIFY => verificationTool e s mem iter
  | Phase.DONE => (s, mem)

/-- `_reason_transition` (`reasoning_loop.py` lines 512-721): the
deterministic transition logic, updating the report, shared state and
memory, and returning the next phase. -/
def reason_transition (phase : Phase) (s : Shared) (rep : Report)
    (mem : RunMemory) (iter maxIter : Nat) :
    Phase × Shared × Report × RunMemory :=
  match phase with
  | Phase.RUN_TESTS =>
    let earlyPass : Bool :=
      match mem._ci_runs.getLast? with
      | some last => decide (last.status = "success")
      | none => false
    if earlyPass then
      (Phase.DONE, s, { rep with
        all_passed := true, verdict := "pass" }, mem)
    else if s.local_all_passed ∧ s.ci_logs ≠ "" then
      (Phase.CLASSIFY, { s with
        test_output := s.ci_logs }, rep, mem)
    else (Phase.CLASSIFY, s, rep, mem)
  | Phase.CLASSIFY =>
    let bugs := s.classified_bugs
    let rep := { rep with
        bugs_found := bugs.length }
    let mem := if bugs ≠ [] then mem.append_failures iter bugs else mem
    if bugs = [] then
      if s.local_all_passed then
        (Phase.DONE, s, { rep with
        all_passed := true, verdict := "pass" },
          mem)
      else
        (Phase.DONE, s, { rep with
        verdict := "no_bugs_classified" }, mem)
    else
      let current_keys := bugs.map (fun b => (b.file, b.bug_type))
      if s.prev_failure_keys ≠ []
          ∧ setEqSL current_keys s.prev_failure_keys then
        (Phase.DONE, s, { rep with
        verdict := "no_new_failures" }, mem)
      else
        (Phase.PLAN_FIX, { s with
        prev_failure_keys := current_keys },
          rep, mem)
  | Phase.PLAN_FIX =>
    if actionableEntries s.fix_plan = [] then
      (Phase.DONE, s, { rep with
        verdict := "no_actionable_fixes" }, mem)
    else (Phase.APPLY_PATCH, s, rep, mem)
  | Phase.APPLY_PATCH =>
    let rep := { rep with
        patches_applied := s.applied_count }
    if s.applied_count = 0 then
      (Phase.DONE, s, { rep with
        verdict := "no_patches_applied" }, mem)
    else (Phase.COMMIT_PUSH, s, rep, mem)
  | Phase.COMMIT_PUSH =>
    let sha := s.commit_sha
    let rep := { rep with
        commit_sha := sha }
    let mem := if sha ≠ "" then mem.append_fixes iter s.applied_patches sha
      else mem
    if sha = "" then
      (Phase.DONE, s, { rep with
        verdict := "commit_failed" }, mem)
    else if s.push_status = "push_failed" then
      (Phase.DONE, s,
        { rep with
        verdict := "push_failed_fixes_applied",
            all_passed := false }, mem)
    else (Phase.WAIT_FOR_CI, s, rep, mem)
  | Phase.WAIT_FOR_CI =>
    if s.ci_status ≠ "completed" then
      (Phase.VERIFY,
        { s with
        ci_unavailable := true, ci_conclusion := "",
            ci_logs := s.test_output }, rep, mem)
    else
      (Phase.FETCH_CI_RESULTS, { s with
        ci_unavailable := false }, rep, mem)
  | Phase.FETCH_CI_RESULTS =>
    let mem := mem.append_ci_run iter
      (if s.ci_conclusion = "" then "unknown" else s.ci_conclusion)
      "" "" ""
    if s.ci_logs = "" then
      (Phase.DONE, s, { rep with
        verdict := "no_ci_logs" }, mem)
    else (Phase.VERIFY, s, rep, mem)
  | Phase.VERIFY =>
    let rep := { rep with
        all_passed := s.all_passed,
        ci_conclusion := s.ci_conclusion,
        verdict := if s.verdict = "" then "fail" else s.verdict }
    if s.ci_unavailable then
      if s.local_all_passed then
        (Phase.DONE, s,
          { rep with
        all_passed := true, verdict := "pass_local",
              ci_conclusion := "local_pass" },
          mem.append_ci_run iter "success" "" "" "")
      else if iter < maxIter then
        (Phase.CLASSIFY,
          { s with
        test_output :=
              (if s.verification_output ≠ "" then s.verification_output
               else s.test_output),
            should_continue := true }, rep, mem)
      else (Phase.DONE, s, { rep with
        verdict := "fail_local_no_ci" }, mem)
    else if rep.all_passed then (Phase.DONE, s, rep, mem)
    else if s.should_continue ∧ iter < maxIter then
      (Phase.CLASSIFY,
        { s with
        test_output :=
            (if s.ci_logs ≠ "" then s.ci_logs
             else s.verification_output) }, rep, mem)
    else (Phase.DONE, s, rep, mem)
  | Phase.DONE => (Phase.DONE, s, rep, mem)

/-- One ring traversal (one `ainvoke` of the compiled graph), bounded by
the `recursion_limit` of 25 node executions; exhausting it is the
caught `GraphRecursionError` (`run_reasoning_loop` lines 441-452).
Returns the shared state, report, memory and next step index. -/
def runRing (env : Nat → EnvStep) (iter maxIter : Nat) :
    Nat → Phase → Shared → Report → RunMemory → Nat →
    Shared × Report × RunMemory × Nat
  | 0, _, s, rep, mem, step =>
    (s, { rep with
        verdict := "graph_error" }, mem, step)
  | fuel + 1, phase, s, rep, mem, step =>
    match phase with
    | Phase.DONE => (s, rep, mem, step)
    | _ =>
      let (s1, mem1) := applyToolOutputs phase (env step) s mem iter
      let (next, s2, rep2, mem2) :=
        reason_transition phase s1 rep mem1 iter maxIter
      match next with
      | Phase.DONE => (s2, rep2, mem2, step + 1)
      | _ => runRing env iter maxIter fuel next s2 rep2 mem2 (step + 1)

/-- The accumulated state of the outer iteration loop. -/
structure LoopState where
  shared : Shared
  memory : RunMemory
  reports : List Report
  total_bugs : Nat
  total_fixes : Nat
  total_commits : Nat
  current_iteration : Nat
  step : Nat
  deriving Repr

/-- One outer iteration (`run_reasoning_loop` lines 413-474): run the
graph from `RUN_TESTS`, record the report and totals, and decide
whether the loop continues (`all_passed` break, commit-budget break,
`should_continue` break). -/
def loopIter (env : Nat → EnvStep) (maxIter : Nat) (st : LoopState) :
    LoopState × Bool :=
  let iter := st.current_iteration + 1
  let rep0 : Report := { iteration := iter }
  let rr :=
    runRing env iter maxIter 25 Phase.RUN_TESTS st.shared rep0
      st.memory st.step
  let rep := rr.2.1
  let tc := st.total_commits + (if rep.commit_sha ≠ "" then 1 else 0)
  ({ shared := rr.1, memory := rr.2.2.1, reports := st.reports ++ [rep],
     total_bugs := st.total_bugs + rep.bugs_found,
     total_fixes := st.total_fixes + rep.patches_applied,
     total_commits := tc, current_iteration := iter, step := rr.2.2.2 },
   if rep.all_passed then false
   else if MAX_TOTAL_COMMITS ≤ tc then false
   else if ¬ rr.1.should_continue then false
   else true)

/-- The `while current_iteration < max_iterations` loop, with fuel equal
to the remaining iteration budget. -/
def runLoopAux (env : Nat → EnvStep) (maxIter : Nat) :
    Nat → LoopState → LoopState
  | 0, st => st
  | fuel + 1, st =>
    if st.current_iteration < maxIter then
      match loopIter env maxIter st with
      | (st', true) => runLoopAux env maxIter fuel st'
      | (st', false) => st'
    else st

/-- The aggregated loop result (`ReasoningLoopResult`, the fields the
claims speak about). -/
structure LoopResult where
  status : String
  iterations_used : Nat
  total_bugs : Nat
  total_fixes : Nat
  total_commits : Nat
  iterations : List Report
  memory : RunMemory
  deriving Repr

/-- `run_reasoning_loop` (lines 358-509): initial state, the outer loop,
and the final verdict computation. -/
def run_reasoning_loop (env : Nat → EnvStep) (maxIter : Nat) :
    LoopResult :=
  let st0 : LoopState :=
    { shared := {}, memory := RunMemory.init, reports := [],
      total_bugs := 0, total_fixes := 0, total_commits := 0,
      current_iteration := 0, step := 0 }
  let st := runLoopAux env maxIter maxIter st0
  let final_passed := (st.reports.getLast?.map (fun r => r.all_passed)).getD false
  let mem :=
    if final_passed ∧ st.total_bugs = 0 ∧ st.total_fixes = 0
        ∧ st.total_commits = 0 then
      st.memory.append_ci_run st.current_iteration "success" "" "" ""
    else st.memory
  let status :=
    if final_passed then "healed"
    else if 0 < st.total_fixes then "partial"
    else "failed"
  { status := status, iterations_used := st.reports.length,
    total_bugs := st.total_bugs, total_fixes := st.total_fixes,
    total_commits := st.total_commits, iterations := st.reports,
    memory := mem }

/-! ## Concrete sample data used by witnesses -/

/-- A sample memory holding one record of iteration 1 and one of
iteration 2 in each collection. -/
def memEx : RunMemory :=
  { _failures := [⟨"a.py", 3, "SYNTAX", "SyntaxError: expected ':'", 1⟩,
                  ⟨"b.py", 9, "LOGIC", "AssertionError", 2⟩],
    _fixes := [⟨"a.py", 3, "Added missing colon at line 3", "abc1", 1⟩,
               ⟨"b.py", 9, "LLM fix around line 9", "def2", 2⟩],
    _ci_runs := [⟨1, "failure", "t1", "t1"⟩, ⟨2, "failure", "t2", "t2"⟩] }

/-- A sample classified-bug list. -/
def bugsEx : List BugDict :=
  [⟨"c.py", 5, "IMPORT", "ModuleNotFoundError: No module named 'x'"⟩]

/-- A sample applied-patch list. -/
def patchesEx : List PatchDict :=
  [⟨"c.py", "Removed unused import line 5", "c.py", 5, "LINTING"⟩]

/-- A 27-line file whose bug line (2) starts a 26-line block: the
`try/except` wrap of `_fix_index_error` rewrites the whole block. -/
def c1File : List String :=
  "def f(xs):\n" :: "    x = xs.pop()\n" :: List.replicate 25 "    a = 1\n"

/-- Bugs used by the C5 counterexample trace. -/
def bugA1 : BugDict := ⟨"a.py", 3, "SYNTAX", "msg"⟩

/-- The same `(file, bug_type)` signature at a shifted line. -/
def bugA2 : BugDict := ⟨"a.py", 7, "SYNTAX", "msg2"⟩

/-- A different signature classified after the stagnation stop. -/
def bugB : BugDict := ⟨"b.py", 2, "LOGIC", "m3"⟩

/-- Tool-output trace refuting the second half of the stagnation claim:
ring 1 classifies `bugA1`, applies and commits a patch, CI fails, the
verifier sets `should_continue := True`, ring 2's CLASSIFY sees the same
`(file, bug_type)` set (`bugA2`) and stops with `no_new_failures`; the
outer loop then reads the stale `should_continue` and starts another
iteration whose classifier returns `bugB`, reaching APPLY_PATCH again. -/
def envC5List : List EnvStep :=
  [ { tr_test_output := "LOG1", tr_failing_suites := 1 },
    { fc_classified_bugs := [bugA1] },
    { fp_fix_plan := [⟨"llm", "a.py", bugA1⟩] },
    { pa_applied_patches := [⟨"a.py", "desc", "a.py", 3, "SYNTAX"⟩] },
    { cp_commit_sha := "abc1", cp_push_status := "success" },
    { wc_ci_status := "completed", wc_ci_conclusion := "failure" },
    { fr_ci_logs := "CILOG1", fr_test_output := "CILOG1",
      fr_ci_failing_suites := 1 },
    {},
    { fc_classified_bugs := [bugA2] },
    { tr_test_output := "LOG2" },
    { fc_classified_bugs := [bugB] },
    { fp_fix_plan := [⟨"llm", "b.py", bugB⟩] },
    { pa_applied_patches := [⟨"b.py", "d2", "b.py", 2, "LOGIC"⟩] },
    {} ]

/-- The C5 environment: the listed steps, then inert tools. -/
def envC5 : Nat → EnvStep := fun n => envC5List.getD n {}

/-- A memory as produced by a real run: the fix's `change_summary` is
the patch description written by `PatchApplierTool._write_patch`
("Added missing colon at line 3"), which carries no `[AI-AGENT]` tag. -/
def memC9 : RunMemory :=
  { _failures := [⟨"a.py", 3, "SYNTAX", "SyntaxError: expected ':'", 1⟩],
    _fixes := [⟨"a.py", 3, "Added missing colon at line 3", "abc1", 1⟩],
    _ci_runs := [⟨1, "failure", "t1", "t1"⟩] }

/-- A plan with two actionable bugs in the same file (lines 6 and 21),
one in another file, and a skipped test file, exercising the
per-file descending application order. -/
def planC4 : List PlanEntry :=
  [⟨"deterministic_colon", "m.py", ⟨"m.py", 6, "SYNTAX", "s"⟩⟩,
   ⟨"deterministic_index_error", "m.py", ⟨"m.py", 21, "INDEX", "i"⟩⟩,
   ⟨"llm", "z.py", ⟨"z.py", 2, "LOGIC", "l"⟩⟩,
   ⟨"skip_test_file", "tests/test_m.py",
     ⟨"tests/test_m.py", 1, "TEST", "t"⟩⟩]

/-- A 30-line file for the line-drift witness; its bug line (index 1)
holds a `v[3]` access. -/
def linesC4 : List String :=
  "for v in data:\n" :: "    y = v[3]\n" :: List.replicate 28 "    z = 1\n"

/-- Two edits at lines strictly below the pending line 2: a rewrite of
line 20 and a rewrite of line 5. -/
def editsC4 : List (Nat × (List String → List String)) :=
  [(20, fun l => l.set 20 "X\n"), (5, fun l => l.set 5 "Y\n")]

/-- The deterministic index-error patch of `linesC4` at its bug line. -/
def rC4 : List String × String := (fix_index_error linesC4 1).getD ([], "")

/-- The colon patch of `linesC4` at its bug line. -/
def sC4 : List String × String := (fix_colon linesC4 1).getD ([], "")

/-- A planner file system with one source file and an empty `rglob`. -/
def pfsC2 : PlannerFS :=
  { isFile := fun p => decide (p = "/repo/app.py"),
    readLines := fun _ => some ["x = data[9]\n"],
    rglob := fun _ => [] }

/-- An applier environment that patches every file it is allowed to. -/
def envC2 : ApplierEnv :=
  { isFile := fun _ => true,
    patchResult := fun _ l => some ("patched\n" :: l) }

/-- Two classified bugs: one in a test file, one in a source file. -/
def bugsC2 : List BugDict :=
  [⟨"tests/test_app.py", 3, "SYNTAX", "SyntaxError: expected ':'"⟩,
   ⟨"app.py", 1, "LOGIC", "IndexError: list index out of range"⟩]

/-- The initial file contents for the C2 witness. -/
def fsC2 : String → List String := fun _ => ["orig\n"]

/-! ## THEOREMS -/

/-! ### Helper lemmas about `List.filter` -/

theorem filter_filter_of_imp {α : Type _} (p q : α → Bool)
    (h : ∀ a, p a = true → q a = true) :
    ∀ l : List α, (l.filter q).filter p = l.filter p := by
  intro l
  induction l with
  | nil => rfl
  | cons a t ih =>
    by_cases hq : q a = true
    · by_cases hp : p a = true
      · simp [List.filter, hq, hp, ih]
      · simp [List.filter, hq, hp, ih]
    · have hp : p a ≠ true := fun hc => hq (h a hc)
      simp [List.filter, hq, hp, ih]

theorem filter_self_idem {α : Type _} (p : α → Bool) (l : List α) :
    (l.filter p).filter p = l.filter p :=
  filter_filter_of_imp p p (fun _ h => h) l

theorem filter_map_eq_nil {α β : Type _} (p : α → Bool) (f : β → α)
    (h : ∀ b, p (f b) = false) :
    ∀ l : List β, (l.map f).filter p = [] := by
  intro l
  induction l with
  | nil => rfl
  | cons b t ih => simp [List.filter, h b, ih]

/-! ### C3 — run-memory appends are idempotent and frame-preserving -/

/-- C3. For every iteration `N`, calling `append_failures`,
`append_fixes` or `append_ci_run` for `N` twice with the same arguments
leaves the stored memory equal to calling it once, and an append for
iteration `N` leaves the stored records of every iteration `j ≠ N`
exactly as they were (no removal, alteration or reordering). -/
theorem runMemory_append_idempotent_and_frame
    (m : RunMemory) (N j : Nat) (bugs : List BugDict)
    (patches : List PatchDict) (sha status st et now : String)
    (hj : j ≠ N) :
    ((m.append_failures N bugs).append_failures N bugs
        = m.append_failures N bugs
      ∧ (m.append_fixes N patches sha).append_fixes N patches sha
        = m.append_fixes N patches sha
      ∧ (m.append_ci_run N status st et now).append_ci_run N status st et now
        = m.append_ci_run N status st et now)
    ∧ ((m.append_failures N bugs)._failures.filter (fun r => r.iteration = j)
        = m._failures.filter (fun r => r.iteration = j)
      ∧ (m.append_fixes N patches sha)._fixes.filter (fun r => r.iteration = j)
        = m._fixes.filter (fun r => r.iteration = j)
      ∧ (m.append_ci_run N status st et now)._ci_runs.filter
            (fun r => r.iteration = j)
        = m._ci_runs.filter (fun r => r.iteration = j)) := by
  constructor
  · refine ⟨?_, ?_, ?_⟩
    · simp only [RunMemory.append_failures, List.filter_append]
      rw [filter_self_idem,
        filter_map_eq_nil (fun f : FailureRecord => decide (f.iteration ≠ N))
          _ (fun b => by simp)]
      simp
    · simp only [RunMemory.append_fixes, List.filter_append]
      rw [filter_self_idem,
        filter_map_eq_nil (fun f : FixRecord => decide (f.iteration ≠ N))
          _ (fun b => by simp)]
      simp
    · simp only [RunMemory.append_ci_run, List.filter_append]
      rw [filter_self_idem]
      simp
  · refine ⟨?_, ?_, ?_⟩
    · simp only [RunMemory.append_failures, List.filter_append]
      rw [filter_filter_of_imp (fun r : FailureRecord => decide (r.iteration = j))
          (fun r : FailureRecord => decide (r.iteration ≠ N))
          (fun a ha => by
            simp only [decide_eq_true_eq] at ha ⊢
            exact ha ▸ hj),
        filter_map_eq_nil (fun r : FailureRecord => decide (r.iteration = j))
          _ (fun b => by simpa using fun h => hj h.symm)]
      simp
    · simp only [RunMemory.append_fixes, List.filter_append]
      rw [filter_filter_of_imp (fun r : FixRecord => decide (r.iteration = j))
          (fun r : FixRecord => decide (r.iteration ≠ N))
          (fun a ha => by
            simp only [decide_eq_true_eq] at ha ⊢
            exact ha ▸ hj),
        filter_map_eq_nil (fun r : FixRecord => decide (r.iteration = j))
          _ (fun b => by simpa using fun h => hj h.symm)]
      simp
    · simp only [RunMemory.append_ci_run, List.filter_append]
      rw [filter_filter_of_imp (fun r : CIRunRecord => decide (r.iteration = j))
          (fun r : CIRunRecord => decide (r.iteration ≠ N))
          (fun a ha => by
            simp only [decide_eq_true_eq] at ha ⊢
            exact ha ▸ hj)]
      simp [List.filter, Ne.symm hj]

/-! ### Lemmas about the dedup loops (claims C7, C8) -/

theorem regexAccum_mono (ms : List RawMatch) :
    ∀ (bugs : List BugReport) (b : BugReport), b ∈ bugs →
      b ∈ regexAccum bugs ms := by
  induction ms with
  | nil => intro bugs b hb; exact hb
  | cons m rest ih =>
    intro bugs b hb
    rw [regexAccum]
    by_cases h : bugs.any (fun b => bugKey b = matchKey m) = true
    · simp only [h, if_true]; exact ih bugs b hb
    · simp only [h, if_false]
      exact ih _ b (List.mem_append_left _ hb)

theorem regexAccum_pairwise (ms : List RawMatch) :
    ∀ bugs : List BugReport,
      bugs.Pairwise (fun a b => bugKey a ≠ bugKey b) →
      (regexAccum bugs ms).Pairwise (fun a b => bugKey a ≠ bugKey b) := by
  induction ms with
  | nil => intro bugs h; exact h
  | cons m rest ih =>
    intro bugs h
    rw [regexAccum]
    by_cases hany : bugs.any (fun b => bugKey b = matchKey m) = true
    · simp only [hany, if_true]; exact ih bugs h
    · simp only [hany, if_false]
      refine ih _ ?_
      rw [List.pairwise_append]
      refine ⟨h, List.pairwise_singleton _ _, ?_⟩
      intro a ha b hb
      rw [List.mem_singleton] at hb
      subst hb
      intro hc
      rw [List.any_eq_true] at hany
      refine hany ⟨a, ha, ?_⟩
      rw [decide_eq_true_eq, hc]
      rfl

theorem regexAccum_first_wins (m : RawMatch) (post : List RawMatch) :
    ∀ (pre : List RawMatch) (bugs : List BugReport),
      (∀ m' ∈ pre, matchKey m' ≠ matchKey m) →
      (∀ b ∈ bugs, bugKey b ≠ matchKey m) →
      reportOfMatch m ∈ regexAccum bugs (pre ++ m :: post) := by
  intro pre
  induction pre with
  | nil =>
    intro bugs _ hbugs
    rw [List.nil_append, regexAccum]
    have hany : bugs.any (fun b => bugKey b = matchKey m) = false := by
      rw [List.any_eq_false]
      intro b hb
      simpa using hbugs b hb
    simp only [hany, Bool.false_eq_true, if_false]
    exact regexAccum_mono post _ _
      (List.mem_append_right _ (List.mem_singleton.mpr rfl))
  | cons m' pre' ih =>
    intro bugs hpre hbugs
    rw [List.cons_append, regexAccum]
    by_cases hany : bugs.any (fun b => bugKey b = matchKey m') = true
    · simp only [hany, if_true]
      exact ih bugs (fun x hx => hpre x (List.mem_cons_of_mem _ hx)) hbugs
    · simp only [hany, if_false]
      refine ih _ (fun x hx => hpre x (List.mem_cons_of_mem _ hx)) ?_
      intro b hb
      rcases List.mem_append.mp hb with hb | hb
      · exact hbugs b hb
      · rw [List.mem_singleton] at hb
        subst hb
        have : matchKey m' ≠ matchKey m := hpre m' (List.mem_cons_self _ _)
        simpa [reportOfMatch, bugKey, matchKey] using this

theorem uniqueClassified_spec (l : List ClassifiedBug) :
    ∀ seen : List (String × Nat × String),
      (∀ b ∈ uniqueClassified seen l, (b.file, b.line, b.bug_type) ∉ seen)
      ∧ (uniqueClassified seen l).Pairwise (fun a b =>
          (a.file, a.line, a.bug_type) ≠ (b.file, b.line, b.bug_type)) := by
  induction l with
  | nil => intro seen; exact ⟨fun b hb => absurd hb (by simp [uniqueClassified]), by simp [uniqueClassified]⟩
  | cons b t ih =>
    intro seen
    rw [uniqueClassified]
    by_cases h : (b.file, b.line, b.bug_type) ∈ seen
    · rw [if_pos h]; exact ih seen
    · rw [if_neg h]
      have hmem := (ih ((b.file, b.line, b.bug_type) :: seen)).1
      have hpw := (ih ((b.file, b.line, b.bug_type) :: seen)).2
      constructor
      · intro x hx hxs
        rcases List.mem_cons.mp hx with hx | hx
        · subst hx; exact h hxs
        · exact hmem x hx (List.mem_cons_of_mem _ hxs)
      · rw [List.pairwise_cons]
        refine ⟨?_, hpw⟩
        intro x hx hc
        exact hmem x hx (by rw [← hc]; exact List.mem_cons_self _ _)

/-- C7. Classification yields at most one record per
`(file, line, bug_type)` key: the regex pass keeps the report of the
first match for a key and drops later matches for the same key, and the
classifier tool's final dedup output never holds two entries with equal
keys. -/
theorem classification_deduplicates (ms : List RawMatch)
    (l : List ClassifiedBug) (m : RawMatch) (pre post : List RawMatch)
    (hms : ms = pre ++ m :: post)
    (hfirst : ∀ m' ∈ pre, matchKey m' ≠ matchKey m) :
    (regex_classify_bugs ms).Pairwise (fun a b => bugKey a ≠ bugKey b)
    ∧ reportOfMatch m ∈ regex_classify_bugs ms
    ∧ (uniqueClassified [] l).Pairwise (fun a b =>
        (a.file, a.line, a.bug_type) ≠ (b.file, b.line, b.bug_type)) := by
  refine ⟨regexAccum_pairwise ms [] (by simp), ?_, (uniqueClassified_spec l []).2⟩
  rw [regex_classify_bugs, hms]
  exact regexAccum_first_wins m post pre [] hfirst (by simp)

/-- Witness for C7: a stream in which two different rules match the same
`(file, line, category)` key with different messages; only the first
match's report is kept. -/
theorem classification_deduplicates_witness :
    ([⟨"app.py", 4, "SYNTAX", "SyntaxError: invalid syntax"⟩,
      ⟨"app.py", 4, "SYNTAX", "SyntaxError: expected ':'"⟩]
        = ([] : List RawMatch) ++
            ⟨"app.py", 4, "SYNTAX", "SyntaxError: invalid syntax"⟩ ::
            [⟨"app.py", 4, "SYNTAX", "SyntaxError: expected ':'"⟩])
    ∧ ((regex_classify_bugs
          [⟨"app.py", 4, "SYNTAX", "SyntaxError: invalid syntax"⟩,
           ⟨"app.py", 4, "SYNTAX", "SyntaxError: expected ':'"⟩]).Pairwise
            (fun a b => bugKey a ≠ bugKey b)
      ∧ reportOfMatch ⟨"app.py", 4, "SYNTAX", "SyntaxError: invalid syntax"⟩
          ∈ regex_classify_bugs
            [⟨"app.py", 4, "SYNTAX", "SyntaxError: invalid syntax"⟩,
             ⟨"app.py", 4, "SYNTAX", "SyntaxError: expected ':'"⟩]
      ∧ (uniqueClassified []
          [⟨"x.py", 1, "LOGIC", "m", "medium", "h"⟩,
           ⟨"x.py", 1, "LOGIC", "m2", "medium", "h"⟩]).Pairwise
            (fun a b =>
              (a.file, a.line, a.bug_type) ≠ (b.file, b.line, b.bug_type))) :=
  ⟨rfl,
   classification_deduplicates _
     [⟨"x.py", 1, "LOGIC", "m", "medium", "h"⟩,
      ⟨"x.py", 1, "LOGIC", "m2", "medium", "h"⟩]
     ⟨"app.py", 4, "SYNTAX", "SyntaxError: invalid syntax"⟩ [] _ rfl
     (by intro m' hm'; simp at hm')⟩

/-! ### Path-component lemmas (claims C2, C8) -/

theorem charsPrefix_decompose :
    ∀ p s : List Char, charsPrefix p s = true → s = p ++ s.drop p.length := by
  intro p
  induction p with
  | nil => intro s _; simp
  | cons c p ih =>
    intro s h
    cases s with
    | nil => simp [charsPrefix] at h
    | cons c' s' =>
      rw [charsPrefix, Bool.and_eq_true] at h
      have hc : c = c' := by simpa using h.1
      subst hc
      simpa using ih s' h.2

theorem splitSlash_ne_nil : ∀ cs : List Char, splitSlash cs ≠ [] := by
  intro cs
  induction cs with
  | nil => simp [splitSlash]
  | cons c t ih =>
    rw [splitSlash]
    cases h : splitSlash t with
    | nil => exact absurd h ih
    | cons s rest =>
      by_cases hc : c = '/' <;> simp [hc]

theorem splitSlash_append :
    ∀ xs ys : List Char,
      splitSlash (xs ++ '/' :: ys) = splitSlash xs ++ splitSlash ys := by
  intro xs ys
  induction xs with
  | nil =>
    rw [List.nil_append, splitSlash]
    cases h : splitSlash ys with
    | nil => exact absurd h (splitSlash_ne_nil ys)
    | cons s rest => simp [splitSlash, h]
  | cons c t ih =>
    rw [List.cons_append, splitSlash, ih, splitSlash]
    cases h : splitSlash t with
    | nil => exact absurd h (splitSlash_ne_nil t)
    | cons s rest => by_cases hc : c = '/' <;> simp [hc]

theorem getLastD_append_cons {α : Type _} (b : α) (t : List α) :
    ∀ (l : List α) (d : α), (l ++ b :: t).getLastD d = t.getLastD b := by
  intro l
  induction l with
  | nil => intro d; rw [List.nil_append, List.getLastD_cons]
  | cons a l ih =>
    intro d
    rw [List.cons_append, List.getLastD_cons, ih]


theorem segsHasDirOf_append_right (names : List String)
    (l' : List String) (h' : l' ≠ [])
    (h : segsHasDirOf names l' = true) :
    ∀ l : List String, segsHasDirOf names (l ++ l') = true := by
  intro l
  induction l with
  | nil => simpa
  | cons a t ih =>
    rw [List.cons_append]
    cases ht : t ++ l' with
    | nil =>
      rcases List.append_eq_nil.mp ht with ⟨-, h2⟩
      exact absurd h2 h'
    | cons b bs =>
      rw [segsHasDirOf, ← ht, ih, Bool.or_true]

theorem segmentsOf_ne_nil (p : String) : segmentsOf p ≠ [] := by
  rw [segmentsOf]
  intro hc
  exact splitSlash_ne_nil p.data (List.map_eq_nil_iff.mp hc)

theorem segmentsOf_drop_workspace (f : String)
    (h : pyStartsWith f "/workspace/" = true) :
    segmentsOf f
      = ["", "workspace"]
        ++ segmentsOf (String.mk (f.data.drop "/workspace/".length)) := by
  have hd : f.data = "/workspace/".data
      ++ f.data.drop "/workspace/".length :=
    charsPrefix_decompose "/workspace/".data f.data h
  have hd' : f.data = "/workspace".data
      ++ '/' :: f.data.drop "/workspace/".length := hd
  rw [segmentsOf]
  conv_lhs => rw [hd']
  rw [splitSlash_append]
  rfl

/-- Stripping the `/workspace/` prefix from a surviving (non-test-path)
reference cannot turn it into a test path. -/
theorem isTestPath_stripWorkspace (f : String)
    (hf : isTestPath f = false) :
    isTestPath (stripWorkspace f) = false := by
  rw [stripWorkspace]
  by_cases h : pyStartsWith f "/workspace/" = true
  · simp only [h, if_true]
    set g := String.mk (f.data.drop "/workspace/".length) with hg
    have hsegs := segmentsOf_drop_workspace f h
    rw [← hg] at hsegs
    obtain ⟨b, t, hbt⟩ : ∃ b t, segmentsOf g = b :: t := by
      cases hsg : segmentsOf g with
      | nil => exact absurd hsg (segmentsOf_ne_nil g)
      | cons b t => exact ⟨b, t, rfl⟩
    have hlast : (segmentsOf f).getLastD "" = (segmentsOf g).getLastD "" := by
      rw [hsegs, hbt, getLastD_append_cons, List.getLastD_cons]
    rw [isTestPath] at hf ⊢
    simp only [Bool.or_eq_false_iff] at hf ⊢
    obtain ⟨⟨⟨⟨h1, h2⟩, h3⟩, h4⟩, h5⟩ := hf
    rw [hlast] at h1 h2 h4
    refine ⟨⟨⟨⟨h1, h2⟩, ?_⟩, h4⟩, ?_⟩
    · cases hdir : segsHasDirOf ["test", "tests"] (segmentsOf g) with
      | false => rfl
      | true =>
        rw [hsegs] at h3
        rw [segsHasDirOf_append_right _ _
          (by rw [hbt]; exact List.cons_ne_nil _ _) hdir] at h3
        exact absurd h3 (by simp)
    · cases hdir : segsHasDirOf ["__tests__"] (segmentsOf g) with
      | false => rfl
      | true =>
        rw [hsegs] at h5
        rw [segsHasDirOf_append_right _ _
          (by rw [hbt]; exact List.cons_ne_nil _ _) hdir] at h5
        exact absurd h5 (by simp)
  · simp only [h, if_false]
    exact hf

theorem dedupReports_subset (l : List BugReport) :
    ∀ (seen : List (String × Nat × String)) (b : BugReport),
      b ∈ dedupReports seen l → b ∈ l := by
  induction l with
  | nil => intro seen b hb; simp [dedupReports] at hb
  | cons a t ih =>
    intro seen b hb
    rw [dedupReports] at hb
    by_cases h : bugKey a ∈ seen
    · rw [if_pos h] at hb
      exact List.mem_cons_of_mem _ (ih seen b hb)
    · rw [if_neg h] at hb
      rcases List.mem_cons.mp hb with hb | hb
      · exact hb ▸ List.mem_cons_self _ _
      · exact List.mem_cons_of_mem _ (ih _ b hb)

theorem dedupReports_covers (l : List BugReport) :
    ∀ (seen : List (String × Nat × String)) (x : BugReport),
      x ∈ l → bugKey x ∉ seen →
      ∃ b ∈ dedupReports seen l, bugKey b = bugKey x := by
  induction l with
  | nil => intro seen x hx; cases hx
  | cons a t ih =>
    intro seen x hx hxs
    rw [dedupReports]
    rcases List.mem_cons.mp hx with hx | hx
    · subst hx
      rw [if_neg hxs]
      exact ⟨x, List.mem_cons_self _ _, rfl⟩
    · by_cases h : bugKey a ∈ seen
      · rw [if_pos h]
        exact ih seen x hx hxs
      · rw [if_neg h]
        by_cases hax : bugKey x = bugKey a
        · exact ⟨a, List.mem_cons_self _ _, hax.symm⟩
        · have hnot : bugKey x ∉ bugKey a :: seen := by
            intro hc
            rcases List.mem_cons.mp hc with hc | hc
            · exact hax hc
            · exact hxs hc
          obtain ⟨b, hb, hbk⟩ := ih (bugKey a :: seen) x hx hnot
          exact ⟨b, List.mem_cons_of_mem _ hb, hbk⟩

theorem sectionTrace_file (fl : List FailedLine) (sec : TraceSection)
    (b : BugReport) (h : sectionTrace fl sec = some b) :
    ∃ f ln, (survivingRefs sec.file_refs).getLast? = some (f, ln)
      ∧ b.file = stripWorkspace f ∧ isTestPath f = false := by
  rw [sectionTrace] at h
  cases hl : failedLookup fl sec.test_name with
  | none => rw [hl] at h; cases h
  | some info =>
    rw [hl] at h
    cases hg : (survivingRefs sec.file_refs).getLast? with
    | none => rw [hg] at h; cases h
    | some p =>
      rw [hg] at h
      obtain ⟨f, ln⟩ := p
      have hb := Option.some.inj h
      have hm : (f, ln) ∈ survivingRefs sec.file_refs :=
        List.mem_of_mem_getLast? hg
      have hp := (List.mem_filter.mp hm).2
      simp only [Bool.and_eq_true, Bool.not_eq_true'] at hp
      exact ⟨f, ln, rfl, by rw [← hb], hp.1.1.1⟩

/-! ### C8 — traceback re-attribution to the last surviving reference -/

/-- C8. When the `FAILED` summary names a test and its traceback section
holds at least one reference surviving the filters (not in the test
tree, not in a bundled third-party path, not a pseudo-file), the
returned list holds a bug located at the *last* surviving reference
(with the keyword-inferred category), every returned bug lies outside
the test tree, and every classification previously attributed to a
test file is removed. -/
theorem trace_reattributes_to_last_source_ref
    (bugs : List BugReport) (failedLines : List FailedLine)
    (sections : List TraceSection)
    (hfl : failedLines ≠ [])
    (sec : TraceSection) (hsec : sec ∈ sections)
    (info : FailedLine)
    (hinfo : failedLookup failedLines sec.test_name = some info)
    (f : String) (ln : Nat)
    (hlast : (survivingRefs sec.file_refs).getLast? = some (f, ln)) :
    (∃ b ∈ trace_test_bugs_to_source bugs failedLines sections,
        b.file = stripWorkspace f ∧ b.line = ln
        ∧ b.bug_type = inferBugTypeFromMsg info.error_msg)
    ∧ (∀ b ∈ trace_test_bugs_to_source bugs failedLines sections,
        isTestPath b.file = false)
    ∧ (∀ b ∈ bugs, isTestPath b.file = true →
        b ∉ trace_test_bugs_to_source bugs failedLines sections) := by
  have h1 : failedLines.isEmpty = false := by
    cases failedLines with
    | nil => exact absurd rfl hfl
    | cons _ _ => rfl
  set tBug : BugReport :=
    { file := stripWorkspace f, line := ln,
      bug_type := inferBugTypeFromMsg info.error_msg,
      message := info.error_msg } with htBug
  have htr : sectionTrace failedLines sec = some tBug := by
    rw [sectionTrace, hinfo, hlast]
  have hmem : tBug ∈ sections.filterMap (sectionTrace failedLines) :=
    List.mem_filterMap.mpr ⟨sec, hsec, htr⟩
  have h2 : (sections.filterMap (sectionTrace failedLines)).isEmpty
      = false := by
    cases hc : sections.filterMap (sectionTrace failedLines) with
    | nil => rw [hc] at hmem; cases hmem
    | cons _ _ => rfl
  have hout : trace_test_bugs_to_source bugs failedLines sections
      = dedupReports [] (bugs.filter (fun b => !isTestPath b.file)
          ++ sections.filterMap (sectionTrace failedLines)) := by
    rw [trace_test_bugs_to_source]
    simp only [h1, h2, Bool.false_eq_true, if_false]
  have hall : ∀ b ∈ trace_test_bugs_to_source bugs failedLines sections,
      isTestPath b.file = false := by
    intro b hb
    rw [hout] at hb
    have hb' := dedupReports_subset _ _ _ hb
    rcases List.mem_append.mp hb' with hb' | hb'
    · exact (Bool.not_eq_true' _) ▸ (List.mem_filter.mp hb').2
    · obtain ⟨sec', _, htr'⟩ := List.mem_filterMap.mp hb'
      obtain ⟨f', ln', -, hbf, hfp⟩ := sectionTrace_file _ _ _ htr'
      rw [hbf]
      exact isTestPath_stripWorkspace f' hfp
  refine ⟨?_, hall, ?_⟩
  · rw [hout]
    obtain ⟨b, hb, hbk⟩ := dedupReports_covers _ [] tBug
      (List.mem_append_right _ hmem) (by simp)
    rw [bugKey, bugKey, htBug] at hbk
    simp only [Prod.mk.injEq] at hbk
    exact ⟨b, hb, hbk.1, hbk.2.1, hbk.2.2⟩
  · intro b hb hbt hmem'
    rw [hall b hmem'] at hbt
    exact Bool.false_ne_true hbt

/-- Witness for C8: the pytest example from the source docstring — a
`ZeroDivisionError` in `test_divide_by_zero` whose section references
the test file at line 24 and `src/math_ops.py` at line 21; the
re-attributed bug lands at `src/math_ops.py:21` with category `LOGIC`
and the original test-file classification disappears. -/
theorem trace_reattributes_witness :
    (([⟨"tests/test_math_ops.py", "test_divide_by_zero",
        "ZeroDivisionError: division by zero"⟩] : List FailedLine) ≠ []
      ∧ (⟨"test_divide_by_zero",
          [("tests/test_math_ops.py", 24), ("src/math_ops.py", 21)]⟩ :
            TraceSection) ∈
          [(⟨"test_divide_by_zero",
            [("tests/test_math_ops.py", 24), ("src/math_ops.py", 21)]⟩ :
              TraceSection)]
      ∧ (survivingRefs
          [("tests/test_math_ops.py", 24), ("src/math_ops.py", 21)]).getLast?
          = some ("src/math_ops.py", 21))
    ∧ ((∃ b ∈ trace_test_bugs_to_source
          [⟨"tests/test_math_ops.py", 24, "LOGIC",
            "ZeroDivisionError: division by zero"⟩]
          [⟨"tests/test_math_ops.py", "test_divide_by_zero",
            "ZeroDivisionError: division by zero"⟩]
          [⟨"test_divide_by_zero",
            [("tests/test_math_ops.py", 24), ("src/math_ops.py", 21)]⟩],
          b.file = stripWorkspace "src/math_ops.py" ∧ b.line = 21
          ∧ b.bug_type = inferBugTypeFromMsg
              "ZeroDivisionError: division by zero")
      ∧ (∀ b ∈ trace_test_bugs_to_source
          [⟨"tests/test_math_ops.py", 24, "LOGIC",
            "ZeroDivisionError: division by zero"⟩]
          [⟨"tests/test_math_ops.py", "test_divide_by_zero",
            "ZeroDivisionError: division by zero"⟩]
          [⟨"test_divide_by_zero",
            [("tests/test_math_ops.py", 24), ("src/math_ops.py", 21)]⟩],
          isTestPath b.file = false)) :=
  ⟨⟨by decide, by decide, by decide⟩,
   let H := trace_reattributes_to_last_source_ref
     [⟨"tests/test_math_ops.py", 24, "LOGIC",
       "ZeroDivisionError: division by zero"⟩]
     [⟨"tests/test_math_ops.py", "test_divide_by_zero",
       "ZeroDivisionError: division by zero"⟩]
     [⟨"test_divide_by_zero",
       [("tests/test_math_ops.py", 24), ("src/math_ops.py", 21)]⟩]
     (by decide)
     ⟨"test_divide_by_zero",
       [("tests/test_math_ops.py", 24), ("src/math_ops.py", 21)]⟩
     (by decide)
     ⟨"tests/test_math_ops.py", "test_divide_by_zero",
       "ZeroDivisionError: division by zero"⟩
     (by decide) "src/math_ops.py" 21 (by decide)
   ⟨H.1, H.2.1⟩⟩

/-! ### Lemmas about the stable sort -/

theorem insertStable_length {α : Type _} (lt : α → α → Bool) (a : α) :
    ∀ l : List α, (insertStable lt a l).length = l.length + 1 := by
  intro l
  induction l with
  | nil => rfl
  | cons b t ih =>
    by_cases h : lt b a = true
    · simp [insertStable, h, ih]
    · simp [insertStable, h]

theorem sortStable_length {α : Type _} (lt : α → α → Bool) :
    ∀ l : List α, (sortStable lt l).length = l.length := by
  intro l
  induction l with
  | nil => rfl
  | cons a t ih => simp [sortStable, insertStable_length, ih]

/-! ### C10 — final CI status resolution -/

/-- C10. With no CI run records the exported final status is `PASSED`
exactly when no failure record exists; with at least one CI run record
it is `PASSED` exactly when the most recently appended run's status is
`success`. -/
theorem resolve_final_ci_status_spec (m : RunMemory) :
    (m._ci_runs = [] →
      (resolve_final_ci_status m = "PASSED" ↔ m._failures = []))
    ∧ (∀ r : CIRunRecord, m._ci_runs.getLast? = some r →
      (resolve_final_ci_status m = "PASSED" ↔ r.status = "success")) := by
  constructor
  · intro hnil
    have hlatest : m.latest_ci_run = none := by
      simp [RunMemory.latest_ci_run, hnil]
    have hempty : m.failuresSorted.isEmpty = true ↔ m._failures = [] := by
      rw [List.isEmpty_iff_length_eq_zero, RunMemory.failuresSorted,
        sortStable_length, List.length_eq_zero]
    rw [resolve_final_ci_status, hlatest]
    by_cases hf : m.failuresSorted.isEmpty = true
    · simp [hf, hempty.mp hf]
    · have : ¬ m._failures = [] := fun hc => hf (hempty.mpr hc)
      simp [hf, this]
  · intro r hr
    have hlatest : m.latest_ci_run = some r := hr
    rw [resolve_final_ci_status, hlatest]
    by_cases hs : r.status = "success"
    · simp [hs]
    · simp [hs]

/-- Witness for C10: `memEx` has CI runs, the last one has status
`failure`, and the resolved status is not `PASSED`. -/
theorem resolve_final_ci_status_spec_witness :
    (memEx._ci_runs.getLast? = some ⟨2, "failure", "t2", "t2"⟩) ∧
    (resolve_final_ci_status memEx = "PASSED" ↔
      (CIRunRecord.mk 2 "failure" "t2" "t2").status = "success") :=
  ⟨by decide,
   (resolve_final_ci_status_spec memEx).2 ⟨2, "failure", "t2", "t2"⟩
     (by decide)⟩

/-! ### C9 — canonical fix-entry description and commit-message tag -/

/-- C9 (code bug).  Evaluating `_build_fixes` at a memory produced by a
real run: the single exported fix entry does carry the canonical
description `"{BUG_TYPE} error in {file} line {line} → Fix: {message}"`
(with the Unicode arrow), but its `commit_message` field is the patch
change summary, which does **not** begin with the `[AI-AGENT]` tag
required by the repository's own `validate_output.py` (check 5). -/
theorem build_fixes_commit_message_missing_tag :
    (build_fixes memC9).length = 1
    ∧ (∀ e ∈ build_fixes memC9,
        e.description = e.bug_type ++ " error in " ++ e.file ++ " line "
          ++ toString e.line ++ " → Fix: " ++ e.commit_message)
    ∧ (∀ e ∈ build_fixes memC9,
        pyStartsWith e.commit_message "[AI-AGENT]" = false) := by
  have h : build_fixes memC9 =
      [{ file := "a.py", bug_type := "SYNTAX", line := 3,
         commit_message := "Added missing colon at line 3",
         status := "applied",
         description :=
           "SYNTAX error in a.py line 3 → Fix: Added missing colon at line 3",
         failure_message := "SyntaxError: expected ':'" }] := rfl
  refine ⟨by rw [h]; rfl, ?_, ?_⟩
  · rw [h]
    intro e he
    rw [List.mem_singleton] at he
    subst he
    rfl
  · rw [h]
    intro e he
    rw [List.mem_singleton] at he
    subst he
    rfl

/-- Witness for C3 at concrete inputs (iteration `N = 1`, frame
iteration `j = 2`). -/
theorem runMemory_append_idempotent_and_frame_witness :
    (2 ≠ 1) ∧
    (((memEx.append_failures 1 bugsEx).append_failures 1 bugsEx
        = memEx.append_failures 1 bugsEx
      ∧ (memEx.append_fixes 1 patchesEx "s1").append_fixes 1 patchesEx "s1"
        = memEx.append_fixes 1 patchesEx "s1"
      ∧ (memEx.append_ci_run 1 "success" "" "" "t9").append_ci_run
            1 "success" "" "" "t9"
        = memEx.append_ci_run 1 "success" "" "" "t9")
    ∧ ((memEx.append_failures 1 bugsEx)._failures.filter
          (fun r => r.iteration = 2)
        = memEx._failures.filter (fun r => r.iteration = 2)
      ∧ (memEx.append_fixes 1 patchesEx "s1")._fixes.filter
          (fun r => r.iteration = 2)
        = memEx._fixes.filter (fun r => r.iteration = 2)
      ∧ (memEx.append_ci_run 1 "success" "" "" "t9")._ci_runs.filter
            (fun r => r.iteration = 2)
        = memEx._ci_runs.filter (fun r => r.iteration = 2))) :=
  ⟨by decide,
   runMemory_append_idempotent_and_frame memEx 1 2 bugsEx patchesEx
     "s1" "success" "" "" "t9" (by decide)⟩

/-! ### C1 — the 20-line change cap is not enforced on deterministic
patches -/

/-- C1 (code bug).  Evaluating the deterministic patch path at a plan
entry the planner really produces (`choose_strategy` picks
`deterministic_index_error` for an IndexError message): on a 27-line
file the `try/except` wrap changes 28 lines, yet `_apply_one` reports
the patch `applied` and writes the new content — there is no
`MAX_CHANGED_LINES` check anywhere on the deterministic path. -/
theorem deterministic_patch_exceeds_cap_and_is_applied :
    choose_strategy "LOGIC" 2 "IndexError: list index out of range" c1File
      = "deterministic_index_error"
    ∧ (apply_deterministic_index_error c1File 2).1 = "applied"
    ∧ (apply_deterministic_index_error c1File 2).2.1 ≠ none
    ∧ MAX_CHANGED_LINES < changedLineCount c1File
        (((apply_deterministic_index_error c1File 2).2.1).getD [])
    ∧ (((apply_deterministic_index_error c1File 2).2.1).getD [])
        ≠ c1File := by
  refine ⟨by decide, rfl, by decide, by decide, by decide⟩

/-! ### C5 — the stagnation stop does not end the run -/

/-- C5 (code bug).  Running the loop on the `envC5` trace: the second
CLASSIFY sees the identical `(file, bug_type)` set and the transition
returns DONE with verdict `no_new_failures` (the claim's first half,
visible in iteration 1's report), but the outer loop then consults the
stale `should_continue = True` left by the verifier and starts another
iteration, which classifies a new bug and applies one more patch —
refuting "no further patches are applied in that run". -/
theorem stagnation_stop_does_not_end_run :
    ((run_reasoning_loop envC5 5).iterations.getD 0 {}).verdict
      = "no_new_failures"
    ∧ ((run_reasoning_loop envC5 5).iterations.getD 0 {}).patches_applied
      = 1
    ∧ ((run_reasoning_loop envC5 5).iterations.getD 1 {}).patches_applied
      = 1
    ∧ 2 ≤ (run_reasoning_loop envC5 5).iterations_used := by
  refine ⟨rfl, rfl, rfl, by decide⟩

/-! ### C6 — iteration and commit budgets -/

theorem loopIter_fst (env : Nat → EnvStep) (maxIter : Nat)
    (st : LoopState) :
    ∃ rep sh memo stp,
      loopIter env maxIter st =
      ({ shared := sh, memory := memo, reports := st.reports ++ [rep],
         total_bugs := st.total_bugs + rep.bugs_found,
         total_fixes := st.total_fixes + rep.patches_applied,
         total_commits := st.total_commits
           + (if rep.commit_sha ≠ "" then 1 else 0),
         current_iteration := st.current_iteration + 1, step := stp },
       if rep.all_passed then false
       else if MAX_TOTAL_COMMITS ≤ st.total_commits
           + (if rep.commit_sha ≠ "" then 1 else 0) then false
       else if ¬ sh.should_continue then false
       else true) :=
  ⟨_, _, _, _, rfl⟩

theorem loopIter_facts (env : Nat → EnvStep) (maxIter : Nat)
    (st : LoopState) :
    (loopIter env maxIter st).1.reports.length = st.reports.length + 1
    ∧ (loopIter env maxIter st).1.total_commits ≤ st.total_commits + 1
    ∧ ((loopIter env maxIter st).2 = true →
        (loopIter env maxIter st).1.total_commits < MAX_TOTAL_COMMITS)
    ∧ (loopIter env maxIter st).1.current_iteration
        = st.current_iteration + 1 := by
  obtain ⟨rep, sh, memo, stp, heq⟩ := loopIter_fst env maxIter st
  rw [heq]
  refine ⟨by simp, ?_, ?_, rfl⟩
  · show st.total_commits + (if rep.commit_sha ≠ "" then 1 else 0) ≤ _
    split <;> omega
  · intro h
    show st.total_commits + (if rep.commit_sha ≠ "" then 1 else 0)
      < MAX_TOTAL_COMMITS
    by_cases h1 : rep.all_passed
    · simp [h1] at h
    · simp [h1] at h
      simpa using h.1

theorem runLoopAux_reports_le (env : Nat → EnvStep) (maxIter : Nat) :
    ∀ (fuel : Nat) (st : LoopState),
      (runLoopAux env maxIter fuel st).reports.length
        ≤ st.reports.length + fuel := by
  intro fuel
  induction fuel with
  | zero => intro st; simp [runLoopAux]
  | succ n ih =>
    intro st
    rw [runLoopAux]
    by_cases h : st.current_iteration < maxIter
    · rw [if_pos h]
      have hfacts := loopIter_facts env maxIter st
      rcases hli : loopIter env maxIter st with ⟨st', cont⟩
      rw [hli] at hfacts
      have hlen : st'.reports.length = st.reports.length + 1 := hfacts.1
      cases cont with
      | true =>
        show (runLoopAux env maxIter n st').reports.length ≤ _
        have := ih st'
        omega
      | false =>
        show st'.reports.length ≤ _
        omega
    · rw [if_neg h]
      omega

theorem runLoopAux_commits_le (env : Nat → EnvStep) (maxIter : Nat) :
    ∀ (fuel : Nat) (st : LoopState),
      st.total_commits + 1 ≤ MAX_TOTAL_COMMITS →
      (runLoopAux env maxIter fuel st).total_commits
        ≤ MAX_TOTAL_COMMITS := by
  intro fuel
  induction fuel with
  | zero => intro st h; rw [runLoopAux]; omega
  | succ n ih =>
    intro st h
    rw [runLoopAux]
    by_cases hc : st.current_iteration < maxIter
    · rw [if_pos hc]
      have hfacts := loopIter_facts env maxIter st
      rcases hli : loopIter env maxIter st with ⟨st', cont⟩
      rw [hli] at hfacts
      have h2 : st'.total_commits ≤ st.total_commits + 1 := hfacts.2.1
      cases cont with
      | true =>
        show (runLoopAux env maxIter n st').total_commits ≤ _
        have h3 : st'.total_commits < MAX_TOTAL_COMMITS :=
          hfacts.2.2.1 rfl
        exact ih st' (by omega)
      | false =>
        show st'.total_commits ≤ _
        omega
    · rw [if_neg hc]
      omega

/-- C6. The loop never executes more than `max_iterations` iterations,
and the accumulated commit count never exceeds the commit budget
`MAX_TOTAL_COMMITS = 10` — once the budget is reached the loop halts
before starting another iteration. -/
theorem loop_respects_budgets (env : Nat → EnvStep) (maxIter : Nat) :
    (run_reasoning_loop env maxIter).iterations_used ≤ maxIter
    ∧ (run_reasoning_loop env maxIter).total_commits
        ≤ MAX_TOTAL_COMMITS := by
  constructor
  · have h := runLoopAux_reports_le env maxIter maxIter
      { shared := {}, memory := RunMemory.init, reports := [],
        total_bugs := 0, total_fixes := 0, total_commits := 0,
        current_iteration := 0, step := 0 }
    simpa [run_reasoning_loop] using h
  · have h := runLoopAux_commits_le env maxIter maxIter
      { shared := {}, memory := RunMemory.init, reports := [],
        total_bugs := 0, total_fixes := 0, total_commits := 0,
        current_iteration := 0, step := 0 } (by decide)
    simpa [run_reasoning_loop] using h

/-! ### C4 lemmas — stable sort order and prefix preservation -/

theorem insertStable_mem {α : Type _} (lt : α → α → Bool) (a x : α) :
    ∀ l : List α, x ∈ insertStable lt a l ↔ x = a ∨ x ∈ l := by
  intro l
  induction l with
  | nil => simp [insertStable]
  | cons b t ih =>
    rw [insertStable]
    by_cases h : lt b a = true
    · rw [if_pos h]
      simp only [List.mem_cons, ih]
      tauto
    · rw [if_neg h]
      exact List.mem_cons

theorem insertStable_pairwise {α : Type _} (lt : α → α → Bool)
    (hasym : ∀ a b, lt a b = true → lt b a = false)
    (htrans : ∀ a b c, lt b a = false → lt c b = false → lt c a = false)
    (a : α) :
    ∀ l : List α, l.Pairwise (fun x y => lt y x = false) →
      (insertStable lt a l).Pairwise (fun x y => lt y x = false) := by
  intro l
  induction l with
  | nil => intro _; simp [insertStable]
  | cons b t ih =>
    intro hp
    rw [List.pairwise_cons] at hp
    rw [insertStable]
    by_cases h : lt b a = true
    · rw [if_pos h, List.pairwise_cons]
      refine ⟨?_, ih hp.2⟩
      intro x hx
      rcases (insertStable_mem lt a x t).mp hx with hx | hx
      · subst hx; exact hasym b x h
      · exact hp.1 x hx
    · rw [if_neg h, List.pairwise_cons]
      rw [Bool.not_eq_true] at h
      refine ⟨?_, List.pairwise_cons.mpr hp⟩
      intro x hx
      rcases List.mem_cons.mp hx with hx | hx
      · subst hx; exact h
      · exact htrans a b x h (hp.1 x hx)

theorem sortStable_pairwise {α : Type _} (lt : α → α → Bool)
    (hasym : ∀ a b, lt a b = true → lt b a = false)
    (htrans : ∀ a b c, lt b a = false → lt c b = false → lt c a = false) :
    ∀ l : List α,
      (sortStable lt l).Pairwise (fun x y => lt y x = false) := by
  intro l
  induction l with
  | nil => simp [sortStable]
  | cons a t ih =>
    rw [sortStable]
    exact insertStable_pairwise lt hasym htrans a _ ih

theorem insertStable_perm {α : Type _} (lt : α → α → Bool) (a : α) :
    ∀ l : List α, (insertStable lt a l).Perm (a :: l) := by
  intro l
  induction l with
  | nil => simp [insertStable]
  | cons b t ih =>
    rw [insertStable]
    by_cases h : lt b a = true
    · rw [if_pos h]
      exact (ih.cons b).trans (List.Perm.swap a b t)
    · rw [if_neg h]

theorem sortStable_perm {α : Type _} (lt : α → α → Bool) :
    ∀ l : List α, (sortStable lt l).Perm l := by
  intro l
  induction l with
  | nil => simp [sortStable]
  | cons a t ih =>
    rw [sortStable]
    exact (insertStable_perm lt a _).trans (ih.cons a)

theorem mem_orderedFold (group : String → List PlanEntry) :
    ∀ (keys : List String) (x : PlanEntry),
      x ∈ keys.foldr (fun k acc => group k ++ acc) [] →
      ∃ k ∈ keys, x ∈ group k := by
  intro keys
  induction keys with
  | nil => intro x hx; cases hx
  | cons k ks ih =>
    intro x hx
    rcases List.mem_append.mp hx with hx | hx
    · exact ⟨k, List.mem_cons_self _ _, hx⟩
    · obtain ⟨k', hk', hx'⟩ := ih x hx
      exact ⟨k', List.mem_cons_of_mem _ hk', hx'⟩

theorem orderedFold_pairwise (group : String → List PlanEntry)
    (hgmem : ∀ k x, x ∈ group k → x.target_file = k)
    (hgpair : ∀ k, (group k).Pairwise (fun e1 e2 =>
      e1.target_file = e2.target_file → e2.bug.line ≤ e1.bug.line)) :
    ∀ keys : List String, keys.Nodup →
      (keys.foldr (fun k acc => group k ++ acc) []).Pairwise
        (fun e1 e2 =>
          e1.target_file = e2.target_file → e2.bug.line ≤ e1.bug.line) := by
  intro keys
  induction keys with
  | nil => intro _; simp
  | cons k ks ih =>
    intro hnodup
    rw [List.nodup_cons] at hnodup
    rw [List.foldr_cons, List.pairwise_append]
    refine ⟨hgpair k, ih hnodup.2, ?_⟩
    intro x hx y hy hxy
    obtain ⟨k', hk', hy'⟩ := mem_orderedFold group ks y hy
    exfalso
    apply hnodup.1
    rw [← hgmem k x hx, hxy, hgmem k' y hy']
    exact hk'

/-- Entries with equal target files stay in descending bug-line order
throughout `ordered_entries`. -/
theorem ordered_entries_pairwise (plan : List PlanEntry) :
    (ordered_entries plan).Pairwise (fun e1 e2 =>
      e1.target_file = e2.target_file → e2.bug.line ≤ e1.bug.line) := by
  rw [ordered_entries]
  refine orderedFold_pairwise _ ?_ ?_ _
    (((sortStable_perm _ _).symm).nodup (List.nodup_dedup _))
  · intro k x hx
    have hm := ((sortStable_perm
      (fun x y : PlanEntry => decide (y.bug.line < x.bug.line)) _).mem_iff).mp hx
    exact of_decide_eq_true (List.mem_filter.mp hm).2
  · intro k
    refine List.Pairwise.imp ?_
      (sortStable_pairwise (fun x y => decide (y.bug.line < x.bug.line))
        ?_ ?_ _)
    · intro x y h _
      simp only [decide_eq_false_iff_not] at h
      omega
    · intro a b h
      simp only [decide_eq_true_eq] at h
      simp only [decide_eq_false_iff_not]
      omega
    · intro a b c h1 h2
      simp only [decide_eq_false_iff_not] at h1 h2 ⊢
      omega

theorem foldl_edits_prefix
    (edits : List (Nat × (List String → List String)))
    (hloc : ∀ e ∈ edits, ∀ (l : List String) (i : Nat), i < e.1 →
      (e.2 l).getD i "" = l.getD i "")
    (p : Nat) (hp : ∀ e ∈ edits, p < e.1) :
    ∀ start : List String,
      (edits.foldl (fun l e => e.2 l) start).getD p ""
        = start.getD p "" := by
  induction edits with
  | nil => intro start; rfl
  | cons e t ih =>
    intro start
    rw [List.foldl_cons]
    rw [ih (fun x hx => hloc x (List.mem_cons_of_mem _ hx))
        (fun x hx => hp x (List.mem_cons_of_mem _ hx))]
    exact hloc e (List.mem_cons_self _ _) start p
      (hp e (List.mem_cons_self _ _))

theorem getD_append_left {α : Type _} (d : α) :
    ∀ (l l' : List α) (i : Nat), i < l.length →
      (l ++ l').getD i d = l.getD i d := by
  intro l
  induction l with
  | nil => intro l' i hi; cases hi
  | cons a t ih =>
    intro l' i hi
    cases i with
    | zero => rfl
    | succ n =>
      rw [List.cons_append]
      simp only [List.getD_cons_succ]
      exact ih l' n (Nat.lt_of_succ_lt_succ hi)

theorem getD_take {α : Type _} (d : α) :
    ∀ (l : List α) (n i : Nat), i < n →
      (l.take n).getD i d = l.getD i d := by
  intro l
  induction l with
  | nil => intro n i _; simp
  | cons a t ih =>
    intro n i hi
    cases n with
    | zero => cases hi
    | succ m =>
      cases i with
      | zero => rfl
      | succ j =>
        simp only [List.take_succ_cons, List.getD_cons_succ]
        exact ih m j (Nat.lt_of_succ_lt_succ hi)

theorem pyInsert_getD_lt {α : Type _} (d : α) (l : List α) (pos : Nat)
    (x : α) (i : Nat) (hpos : pos ≤ l.length) (hi : i < pos) :
    (pyInsert l pos x).getD i d = l.getD i d := by
  rw [pyInsert, List.append_assoc,
    getD_append_left d _ _ i (by rw [List.length_take]; omega),
    getD_take d l pos i hi]

theorem pyInsert_length {α : Type _} (l : List α) (pos : Nat) (x : α) :
    (pyInsert l pos x).length = l.length + 1 := by
  rw [pyInsert]
  simp only [List.length_append, List.length_take, List.length_drop,
    List.length_cons, List.length_nil]
  omega

theorem getD_set_ne {α : Type _} (d : α) :
    ∀ (l : List α) (j : Nat) (x : α) (i : Nat), i ≠ j →
      (l.set j x).getD i d = l.getD i d := by
  intro l
  induction l with
  | nil => intro j x i _; simp
  | cons a t ih =>
    intro j x i hij
    cases j with
    | zero =>
      cases i with
      | zero => exact absurd rfl hij
      | succ n => rfl
    | succ m =>
      cases i with
      | zero => rfl
      | succ n =>
        simp only [List.set_cons_succ, List.getD_cons_succ]
        exact ih m x n (fun h => hij (by rw [h]))

theorem indentRangeGo_getD_lt (s : String) (lo hi : Nat) :
    ∀ (l : List String) (n i : Nat) (d : String), n + i < lo →
      (indentRangeGo s lo hi n l).getD i d = l.getD i d := by
  intro l
  induction l with
  | nil => intro n i d _; rfl
  | cons a t ih =>
    intro n i d hlt
    cases i with
    | zero =>
      rw [indentRangeGo]
      have hno : ¬ (lo ≤ n ∧ n ≤ hi) := by omega
      simp only [hno, if_false, List.getD_cons_zero]
    | succ m =>
      rw [indentRangeGo]
      simp only [List.getD_cons_succ]
      exact ih (n + 1) m d (by omega)

theorem indentRangeGo_length (s : String) (lo hi : Nat) :
    ∀ (l : List String) (n : Nat),
      (indentRangeGo s lo hi n l).length = l.length := by
  intro l
  induction l with
  | nil => intro n; rfl
  | cons a t ih => intro n; rw [indentRangeGo]; simp [ih]

theorem blockEndAux_le (lines : List String) (ind : Nat) :
    ∀ (fuel be : Nat), be ≤ lines.length →
      blockEndAux lines ind fuel be ≤ lines.length := by
  intro fuel
  induction fuel with
  | zero => intro be h; exact h
  | succ n ih =>
    intro be h
    rw [blockEndAux]
    split
    · split
      · split
        · exact h
        · exact ih (be + 1) (by omega)
      · exact h
    · exact h

theorem blockEndAux_ge (lines : List String) (ind : Nat) :
    ∀ (fuel be : Nat), be ≤ blockEndAux lines ind fuel be := by
  intro fuel
  induction fuel with
  | zero => intro be; exact Nat.le_refl be
  | succ n ih =>
    intro be
    rw [blockEndAux]
    split
    · split
      · split
        · exact Nat.le_refl be
        · exact Nat.le_trans (Nat.le_succ be) (ih (be + 1))
      · exact Nat.le_refl be
    · exact Nat.le_refl be

/-- Every deterministic index-error patch leaves all lines strictly
above the bug line untouched. -/
theorem fix_index_error_prefix (lines : List String) (idx : Nat)
    (hidx : idx < lines.length) (r : List String × String)
    (hr : fix_index_error lines idx = some r) :
    ∀ i, i < idx → r.1.getD i "" = lines.getD i "" := by
  intro i hi
  rw [fix_index_error] at hr
  cases hv : findVarIndex (pyStrip (lines.getD idx "")) with
  | none =>
    rw [hv] at hr
    have hr1 := congrArg Prod.fst (Option.some.inj hr)
    rw [← hr1]
    have hbe1 : idx + 1 ≤ blockEnd lines idx (indentOf (lines.getD idx "")) :=
      blockEndAux_ge lines _ lines.length (idx + 1)
    have hbe2 : blockEnd lines idx (indentOf (lines.getD idx ""))
        ≤ lines.length :=
      blockEndAux_le lines _ lines.length (idx + 1) (by omega)
    rw [pyInsert_getD_lt "" _ _ _ i
        (by rw [indentRangeGo_length, pyInsert_length]; omega) (by omega),
      indentRangeGo_getD_lt _ _ _ _ 0 i "" (by omega),
      pyInsert_getD_lt "" lines idx _ i (by omega) hi]
  | some p =>
    rw [hv] at hr
    have hr1 := congrArg Prod.fst (Option.some.inj hr)
    rw [← hr1]
    exact pyInsert_getD_lt "" lines idx _ i (by omega) hi

/-- The colon patch leaves all lines other than the bug line
untouched. -/
theorem fix_colon_prefix (lines : List String) (idx : Nat)
    (r : List String × String) (hr : fix_colon lines idx = some r) :
    ∀ i, i ≠ idx → r.1.getD i "" = lines.getD i "" := by
  intro i hi
  rw [fix_colon] at hr
  split at hr
  · have hr1 := congrArg Prod.fst (Option.some.inj hr)
    rw [← hr1]
    exact getD_set_ne "" lines idx _ i hi
  · cases hr

/-- C4: `PatchApplierTool.execute` orders the actionable plan entries
so that any two entries for the same target file appear with the
higher bug line first, and each deterministic edit rewrites only its
own line and lines below it: an abstract sequence of edits all placed
strictly below a pending line leaves that line's content unchanged,
the index-error patch at a line preserves every line above it, and
the colon patch preserves every other line — so the descending order
never invalidates the line number of a still-pending lower edit. -/
theorem patch_order_descending_prevents_line_drift
    (plan : List PlanEntry) (lines : List String) (idx : Nat)
    (hidx : idx < lines.length) (r s : List String × String)
    (edits : List (Nat × (List String → List String)))
    (hloc : ∀ e ∈ edits, ∀ (l : List String) (i : Nat), i < e.1 →
      (e.2 l).getD i "" = l.getD i "")
    (p : Nat) (hp : ∀ e ∈ edits, p < e.1) :
    ((ordered_entries plan).Pairwise (fun e1 e2 =>
        e1.target_file = e2.target_file → e2.bug.line ≤ e1.bug.line))
    ∧ (edits.foldl (fun l e => e.2 l) lines).getD p "" = lines.getD p ""
    ∧ (fix_index_error lines idx = some r →
        ∀ i, i < idx → r.1.getD i "" = lines.getD i "")
    ∧ (fix_colon lines idx = some s →
        ∀ i, i ≠ idx → s.1.getD i "" = lines.getD i "") :=
  ⟨ordered_entries_pairwise plan,
    foldl_edits_prefix edits hloc p hp lines,
    fun hr i hi => fix_index_error_prefix lines idx hidx r hr i hi,
    fun hs i hi => fix_colon_prefix lines idx s hs i hi⟩

/-- The line-drift theorem at concrete inputs: the four-entry sample
plan, the 30-line sample file with its bug at index 1, and two edits
at lines 20 and 5 with line 2 still pending. -/
theorem patch_order_descending_line_drift_witness :
    1 < linesC4.length ∧
    (((ordered_entries planC4).Pairwise (fun e1 e2 =>
        e1.target_file = e2.target_file → e2.bug.line ≤ e1.bug.line))
    ∧ (editsC4.foldl (fun l e => e.2 l) linesC4).getD 2 ""
        = linesC4.getD 2 ""
    ∧ (fix_index_error linesC4 1 = some rC4 →
        ∀ i, i < 1 → rC4.1.getD i "" = linesC4.getD i "")
    ∧ (fix_colon linesC4 1 = some sC4 →
        ∀ i, i ≠ 1 → sC4.1.getD i "" = linesC4.getD i "")) := by
  refine ⟨by decide,
    patch_order_descending_prevents_line_drift planC4 linesC4 1
      (by decide) rC4 sC4 editsC4 ?_ 2 ?_⟩
  · intro e he l i hi
    rcases List.mem_cons.mp he with h | h
    · subst h
      exact getD_set_ne "" l 20 _ i (Nat.ne_of_lt hi)
    · rcases List.mem_cons.mp h with h | h
      · subst h
        exact getD_set_ne "" l 5 _ i (Nat.ne_of_lt hi)
      · cases h
  · intro e he
    rcases List.mem_cons.mp he with h | h
    · subst h
      show 2 < 20
      decide
    · rcases List.mem_cons.mp h with h | h
      · subst h
        show 2 < 5
        decide
      · cases h

/-! ### C2 lemmas — path prefixing, planner targets, applier frame -/

theorem charsPrefix_append_right (m : List Char) :
    ∀ (p l : List Char), charsPrefix p l = true →
      charsPrefix p (l ++ m) = true := by
  intro p
  induction p with
  | nil => intro l _; rfl
  | cons a ps ih =>
    intro l h
    cases l with
    | nil => simp [charsPrefix] at h
    | cons c cs =>
      rw [charsPrefix, Bool.and_eq_true] at h
      rw [List.cons_append, charsPrefix, Bool.and_eq_true]
      exact ⟨h.1, ih cs h.2⟩

theorem pyStartsWith_append (a b pre : String)
    (h : pyStartsWith a pre = true) :
    pyStartsWith (a ++ b) pre = true := by
  rw [pyStartsWith] at h ⊢
  rw [String.data_append]
  exact charsPrefix_append_right b.data pre.data a.data h

theorem resolvePath_abs (repo_path t : String)
    (hrepo : pyStartsWith repo_path "/" = true) :
    pyStartsWith (resolvePath repo_path t) "/" = true := by
  rw [resolvePath]
  split
  · assumption
  · exact pyStartsWith_append (repo_path ++ "/") t "/"
      (pyStartsWith_append repo_path "/" "/" hrepo)

theorem segmentsOf_slash_append (pre t : String) :
    segmentsOf (pre ++ "/" ++ t) = segmentsOf pre ++ segmentsOf t := by
  have hd : (pre ++ "/" ++ t).data = pre.data ++ '/' :: t.data := by
    rw [String.data_append, String.data_append, List.append_assoc]
    rfl
  rw [segmentsOf, hd, splitSlash_append, List.map_append]
  rfl

theorem segsTestsThenTest_append_right
    (l' : List String) (h' : l' ≠ [])
    (h : segsTestsThenTest l' = true) :
    ∀ l : List String, segsTestsThenTest (l ++ l') = true := by
  intro l
  induction l with
  | nil => simpa
  | cons a t ih =>
    rw [List.cons_append]
    cases ht : t ++ l' with
    | nil =>
      rcases List.append_eq_nil.mp ht with ⟨-, h2⟩
      exact absurd h2 h'
    | cons b bs =>
      rw [segsTestsThenTest, ← ht, ih, Bool.or_true]

theorem isTestFile_prefix (pre t : String) (h : isTestFile t = true) :
    isTestFile (pre ++ "/" ++ t) = true := by
  obtain ⟨b, bs, hbt⟩ : ∃ b bs, segmentsOf t = b :: bs := by
    cases hsg : segmentsOf t with
    | nil => exact absurd hsg (segmentsOf_ne_nil t)
    | cons b bs => exact ⟨b, bs, rfl⟩
  have hsegs := segmentsOf_slash_append pre t
  have hlast : (segmentsOf (pre ++ "/" ++ t)).getLastD ""
      = (segmentsOf t).getLastD "" := by
    rw [hsegs, hbt, getLastD_append_cons, List.getLastD_cons]
  rw [isTestFile] at h ⊢
  simp only [Bool.or_eq_true] at h ⊢
  rw [hlast]
  rcases h with ((((h | h) | h) | h) | h) | h
  · exact Or.inl (Or.inl (Or.inl (Or.inl (Or.inl h))))
  · exact Or.inl (Or.inl (Or.inl (Or.inl (Or.inr h))))
  · exact Or.inl (Or.inl (Or.inl (Or.inr h)))
  · refine Or.inl (Or.inl (Or.inr ?_))
    rw [hsegs]
    exact segsHasDirOf_append_right ["__tests__"] (segmentsOf t)
      (segmentsOf_ne_nil t) h (segmentsOf pre)
  · refine Or.inl (Or.inr ?_)
    rw [hsegs]
    exact segsTestsThenTest_append_right (segmentsOf t)
      (segmentsOf_ne_nil t) h (segmentsOf pre)
  · exact Or.inr h

theorem isTestFile_resolvePath (repo_path t : String)
    (h : isTestFile t = true) :
    isTestFile (resolvePath repo_path t) = true := by
  rw [resolvePath]
  split
  · exact h
  · exact isTestFile_prefix repo_path t h

theorem plan_one_skip (pfs : PlannerFS) (repo_path : String)
    (bug : BugDict) (h : isTestFile bug.file = true) :
    plan_one pfs repo_path bug
      = { strategy := "skip_test_file", target_file := bug.file,
          bug := bug } := by
  rw [plan_one, if_pos h]

theorem fix_planner_go_cons (pfs : PlannerFS) (repo_path : String)
    (pk : List (String × String)) (bug : BugDict) (rest : List BugDict)
    (seen : List (String × Nat)) (hs : (bug.file, bug.line) ∉ seen) :
    fix_planner_go pfs repo_path pk (bug :: rest) seen
      = (if ((bug.file, bug.bug_type) ∈ pk ∨ (bug.file, "") ∈ pk)
            ∧ pyStartsWith (plan_one pfs repo_path bug).strategy
                "deterministic" = true then
          { plan_one pfs repo_path bug with strategy := "llm" }
        else plan_one pfs repo_path bug)
        :: fix_planner_go pfs repo_path pk rest
            ((bug.file, bug.line) :: seen) := by
  rw [fix_planner_go, if_neg hs]

theorem fix_planner_head_skip (pfs : PlannerFS) (repo_path : String)
    (pk : List (String × String)) (bug : BugDict) (rest : List BugDict)
    (seen : List (String × Nat)) (hs : (bug.file, bug.line) ∉ seen)
    (ht : isTestFile bug.file = true) :
    fix_planner_go pfs repo_path pk (bug :: rest) seen
      = { strategy := "skip_test_file", target_file := bug.file,
          bug := bug }
        :: fix_planner_go pfs repo_path pk rest
            ((bug.file, bug.line) :: seen) := by
  rw [fix_planner_go_cons pfs repo_path pk bug rest seen hs,
    plan_one_skip pfs repo_path bug ht, if_neg]
  intro hc
  have h2 : pyStartsWith "skip_test_file" "deterministic" = true := hc.2
  exact absurd h2 (by decide)

theorem fix_planner_go_skip_exists (pfs : PlannerFS) (repo_path : String)
    (pk : List (String × String)) :
    ∀ (bugs : List BugDict) (seen : List (String × Nat)) (b : BugDict),
      b ∈ bugs → isTestFile b.file = true → (b.file, b.line) ∉ seen →
      ∃ e ∈ fix_planner_go pfs repo_path pk bugs seen,
        e.strategy = "skip_test_file" ∧ e.target_file = b.file
          ∧ e.bug.line = b.line := by
  intro bugs
  induction bugs with
  | nil => intro seen b hb _ _; cases hb
  | cons bug rest ih =>
    intro seen b hb htest hseen
    by_cases hs : (bug.file, bug.line) ∈ seen
    · rw [fix_planner_go, if_pos hs]
      rcases List.mem_cons.mp hb with rfl | hb'
      · exact absurd hs hseen
      · exact ih seen b hb' htest hseen
    · rcases List.mem_cons.mp hb with rfl | hb'
      · rw [fix_planner_head_skip pfs repo_path pk b rest seen hs htest]
        exact ⟨_, List.mem_cons_self _ _, rfl, rfl, rfl⟩
      · by_cases hsame : (b.file, b.line) = (bug.file, bug.line)
        · have hf : b.file = bug.file := congrArg Prod.fst hsame
          have hl : b.line = bug.line := congrArg Prod.snd hsame
          rw [fix_planner_head_skip pfs repo_path pk bug rest seen hs
            (hf ▸ htest)]
          exact ⟨_, List.mem_cons_self _ _, rfl, hf.symm, hl.symm⟩
        · rw [fix_planner_go_cons pfs repo_path pk bug rest seen hs]
          obtain ⟨e, he, hprop⟩ := ih ((bug.file, bug.line) :: seen) b hb'
            htest (by
              intro hc
              rcases List.mem_cons.mp hc with h | h
              · exact hsame h
              · exact hseen h)
          exact ⟨e, List.mem_cons_of_mem _ he, hprop⟩

theorem plan_one_target_cases (pfs : PlannerFS) (repo_path : String)
    (bug : BugDict) (hrepo : pyStartsWith repo_path "/" = true)
    (hglob : ∀ n c, c ∈ pfs.rglob n → pyStartsWith c "/" = true) :
    (plan_one pfs repo_path bug).strategy = "skip_test_file"
    ∨ (plan_one pfs repo_path bug).strategy = "unresolvable"
    ∨ pyStartsWith (plan_one pfs repo_path bug).target_file "/" = true := by
  rw [plan_one]
  split
  · exact Or.inl rfl
  · rcases hfound : (if pfs.isFile (resolvePath repo_path bug.file) = true
        then some (resolvePath repo_path bug.file)
        else (pfs.rglob (pathName bug.file)).head?) with _ | abs_path
    · simp only [hfound]
      exact Or.inr (Or.inl trivial)
    · have habs : pyStartsWith abs_path "/" = true := by
        split at hfound
        · cases hfound
          exact resolvePath_abs repo_path bug.file hrepo
        · cases hl : pfs.rglob (pathName bug.file) with
          | nil => rw [hl] at hfound; cases hfound
          | cons c cs =>
            rw [hl] at hfound
            have hceq : c = abs_path :=
              Option.some.inj (by simpa using hfound)
            rw [← hceq]
            exact hglob (pathName bug.file) c
              (by rw [hl]; exact List.mem_cons_self c cs)
      simp only [hfound]
      rcases hrl : pfs.readLines abs_path with _ | lines
      · simp only [hrl]
        exact Or.inr (Or.inl trivial)
      · simp only [hrl]
        exact Or.inr (Or.inr habs)

theorem fix_planner_go_target_abs (pfs : PlannerFS) (repo_path : String)
    (pk : List (String × String))
    (hrepo : pyStartsWith repo_path "/" = true)
    (hglob : ∀ n c, c ∈ pfs.rglob n → pyStartsWith c "/" = true) :
    ∀ (bugs : List BugDict) (seen : List (String × Nat)) (e : PlanEntry),
      e ∈ fix_planner_go pfs repo_path pk bugs seen →
      e.strategy = "skip_test_file" ∨ e.strategy = "unresolvable"
        ∨ pyStartsWith e.target_file "/" = true := by
  intro bugs
  induction bugs with
  | nil => intro seen e he; cases he
  | cons bug rest ih =>
    intro seen e he
    by_cases hs : (bug.file, bug.line) ∈ seen
    · rw [fix_planner_go, if_pos hs] at he
      exact ih seen e he
    · rw [fix_planner_go_cons pfs repo_path pk bug rest seen hs] at he
      rcases List.mem_cons.mp he with rfl | he'
      · split
        · refine Or.inr (Or.inr ?_)
          rcases plan_one_target_cases pfs repo_path bug hrepo hglob
            with h | h | h
          · rename_i hc
            rw [h] at hc
            have h2 : pyStartsWith "skip_test_file" "deterministic"
                = true := hc.2
            exact absurd h2 (by decide)
          · rename_i hc
            rw [h] at hc
            have h2 : pyStartsWith "unresolvable" "deterministic"
                = true := hc.2
            exact absurd h2 (by decide)
          · exact h
        · exact plan_one_target_cases pfs repo_path bug hrepo hglob
      · exact ih ((bug.file, bug.line) :: seen) e he'

theorem apply_one_fs_frame (env : ApplierEnv) (repo_path : String)
    (e : PlanEntry) (fs : String → List String) (q : String)
    (hne : isTestFile e.target_file = true
      ∨ resolvePath repo_path e.target_file ≠ q) :
    apply_one_fs env repo_path e fs q = fs q := by
  simp only [apply_one_fs]
  split
  · rfl
  · rename_i hnt
    rcases hne with h | h
    · exact absurd h hnt
    · split
      · rfl
      · rcases hpr : env.patchResult e
            (fs (resolvePath repo_path e.target_file)) with _ | newLines
        · rfl
        · exact if_neg (fun hq => h hq.symm)

theorem foldl_apply_frame (env : ApplierEnv) (repo_path : String)
    (q : String) :
    ∀ (l : List PlanEntry) (fs : String → List String),
      (∀ e ∈ l, isTestFile e.target_file = true
        ∨ resolvePath repo_path e.target_file ≠ q) →
      l.foldl (fun f e => apply_one_fs env repo_path e f) fs q = fs q := by
  intro l
  induction l with
  | nil => intro fs _; rfl
  | cons e t ih =>
    intro fs hl
    rw [List.foldl_cons]
    rw [ih _ (fun x hx => hl x (List.mem_cons_of_mem _ hx))]
    exact apply_one_fs_frame env repo_path e fs q
      (hl e (List.mem_cons_self _ _))

theorem mem_ordered_entries (plan : List PlanEntry) (e : PlanEntry)
    (he : e ∈ ordered_entries plan) :
    e ∈ plan
      ∧ ¬ (e.strategy = "skip_test_file"
            ∨ e.strategy = "unresolvable") := by
  rw [ordered_entries] at he
  obtain ⟨k, hk, he'⟩ := mem_orderedFold _ _ e he
  have hm := ((sortStable_perm
    (fun x y : PlanEntry => decide (y.bug.line < x.bug.line))
    _).mem_iff).mp he'
  have h1 := List.mem_filter.mp hm
  have h2 := List.mem_filter.mp h1.1
  refine ⟨h2.1, ?_⟩
  have := h2.2
  simpa using this

/-- C2: for every classified bug whose file matches the test-file
naming convention, `FixPlannerTool` emits a `skip_test_file` plan entry
at that file and line, and (with an absolute `repo_path` and absolute
`rglob` candidates, as `pathlib` guarantees) `PatchApplierTool.execute`
run on the produced plan leaves the bytes of that file — at its
resolved location — unchanged, whatever the patch oracle produces. -/
theorem test_file_protection
    (pfs : PlannerFS) (env : ApplierEnv) (repo_path : String)
    (bugs : List BugDict) (pk : List (String × String))
    (fs : String → List String) (b : BugDict)
    (hb : b ∈ bugs) (htb : isTestFile b.file = true)
    (hrepo : pyStartsWith repo_path "/" = true)
    (hglob : ∀ n c, c ∈ pfs.rglob n → pyStartsWith c "/" = true) :
    (∃ e ∈ fix_planner_execute pfs repo_path bugs pk,
        e.strategy = "skip_test_file" ∧ e.target_file = b.file
          ∧ e.bug.line = b.line)
    ∧ patch_applier_execute_fs env repo_path
        (fix_planner_execute pfs repo_path bugs pk) fs
        (resolvePath repo_path b.file)
      = fs (resolvePath repo_path b.file) := by
  constructor
  · exact fix_planner_go_skip_exists pfs repo_path pk bugs [] b hb htb
      (List.not_mem_nil _)
  · rw [patch_applier_execute_fs]
    apply foldl_apply_frame
    intro e he
    obtain ⟨hmem, hact⟩ := mem_ordered_entries _ e he
    by_cases htf : isTestFile e.target_file = true
    · exact Or.inl htf
    · refine Or.inr ?_
      rcases fix_planner_go_target_abs pfs repo_path pk hrepo hglob
        bugs [] e hmem with h | h | h
      · exact absurd (Or.inl h) hact
      · exact absurd (Or.inr h) hact
      · rw [resolvePath, if_pos h]
        intro hq
        apply htf
        rw [hq]
        exact isTestFile_resolvePath repo_path b.file htb

/-- The protection theorem at concrete inputs: two bugs, one in
`tests/test_app.py`, an absolute repo path, an empty `rglob`, and a
patch oracle that rewrites every file it is handed. -/
theorem test_file_protection_witness :
    (⟨"tests/test_app.py", 3, "SYNTAX", "SyntaxError: expected ':'"⟩
        : BugDict) ∈ bugsC2
    ∧ isTestFile "tests/test_app.py" = true
    ∧ pyStartsWith "/repo" "/" = true
    ∧ ((∃ e ∈ fix_planner_execute pfsC2 "/repo" bugsC2 [],
          e.strategy = "skip_test_file"
            ∧ e.target_file = "tests/test_app.py" ∧ e.bug.line = 3)
      ∧ patch_applier_execute_fs envC2 "/repo"
          (fix_planner_execute pfsC2 "/repo" bugsC2 []) fsC2
          (resolvePath "/repo" "tests/test_app.py")
        = fsC2 (resolvePath "/repo" "tests/test_app.py")) := by
  refine ⟨by decide, by decide, by decide,
    test_file_protection pfsC2 envC2 "/repo" bugsC2 [] fsC2
      ⟨"tests/test_app.py", 3, "SYNTAX", "SyntaxError: expected ':'"⟩
      (by decide) (by decide) (by decide)
      (fun n c hc => absurd hc (List.not_mem_nil c))⟩
end HealAgent
